import Mathlib

/-!
Verification of the lipimerge sparse-table merge engine.

This file gives a shallow embedding, in Lean 4, of the core of the
`lipimerge` package:

* `src/lipimerge/internal/utils.py` — the generic in-place sorters
  (`quick_sort`, `selection_sort_step`) and the `is_blank` predicate;
* `src/lipimerge/internal/xutils.py` — the sparse-table model
  (openpyxl worksheets as used by the code), `validate_input`, `merge`,
  `column_swap`, `clear_found_values` and `has_empty_data_set`.

Modelling conventions:

* An openpyxl `Worksheet` is modelled by `Sheet`: 1-based `maxRow`/`maxCol`
  bounds plus a total function from (row, column) to an optional cell value.
  Cell values are strings or numbers (`Value`); numbers are modelled as
  exact rationals, and `math.isclose` is translated literally on them.
* `ws.cell(r, c, v)` with a non-`None` `v` writes the value and extends the
  sheet bounds; with `v = None` it only extends the bounds (openpyxl creates
  the cell but does not assign a value).  `ws.append([x])` places `x` in
  column 1 of a fresh row `maxRow + 1` (at every call site of `append` the
  sheet's internal `_current_row` equals `max_row`, because earlier
  `cell`/`iter_rows` accesses have touched row `max_row`).
* Reading a cell in openpyxl also creates it, which can only grow the
  bounds.  The validator embedding threads this effect explicitly (`touch`)
  because claim C9 is about it; in `merge`/`clear_found_values` every read
  is within bounds, so reads are modelled as pure lookups there.
* Python exceptions are modelled with `Except`; where a raising operation
  also matters for the state the caller still holds, the error value carries
  the state at the moment of the raise.
* Python's `str.casefold` is modelled as per-character `Char.toLower`
  (identical on the ASCII token `"blank"` that is searched for), and
  `str.strip` as `String.trim`.  `is_blank` and `trim_class_name` raise
  `AttributeError` in Python when applied to a non-string value; the
  embedding totalises these cases (returning `false` / the value unchanged)
  and the theorems about blank handling are stated on sheets whose labels
  are strings or empty, which is all that Python's validator accepts
  without raising.
-/

set_option maxHeartbeats 1600000
set_option linter.unusedSectionVars false

namespace Lipimerge

/-! ## Cell values -/

/-- A scalar cell value: a string or a (rational-modelled) number. -/
inductive Value where
  | str (s : String)
  | num (q : ℚ)
deriving DecidableEq, Repr

/-- Python `str(v)`, used in diagnostic messages. -/
def vstr : Value → String
  | .str s => s
  | .num q => toString q

/-- Python `str(v)` lifted to optional values (`str(None) = "None"`). -/
def ovstr : Option Value → String
  | none => "None"
  | some v => vstr v

/-! ## String helpers (Python `in` / `casefold` on strings) -/

/-- Does `l` start with `p` (character lists)? -/
def startsWithL : List Char → List Char → Bool
  | _, [] => true
  | [], _ :: _ => false
  | a :: as, b :: bs => a == b && startsWithL as bs

/-- Python's substring test `p in l` on character lists. -/
def containsL : List Char → List Char → Bool
  | [], p => p.isEmpty
  | a :: t, p => startsWithL (a :: t) p || containsL t p

/-- Python `s.casefold()` (per-character lowercasing; exact for the ASCII
token `"blank"` this program searches for). -/
def pyCasefold (s : String) : String := String.mk (s.data.map Char.toLower)

/-! ## `utils.py`: `is_blank` -/

/-- Embeds `utils.is_blank`: `False if record is None else "blank" in
record.casefold()`.  Python raises `AttributeError` on a non-string record;
that case is totalised to `false` (see the file header). -/
def is_blank : Option Value → Bool
  | none => false
  | some (.str s) => containsL (pyCasefold s).data "blank".data
  | some (.num _) => false

/-! ## `utils.py`: the generic sorters

The Python sorters act on an abstract container through caller-supplied
`less`/`swap` callbacks.  Claims C2 and C8 instantiate them in the standard
way on a Python list of comparable keys (`less = arr[i] < arr[j]`,
`swap = arr[i], arr[j] = arr[j], arr[i]`), which we model on `List α` for a
linear order `α`.  Python list indexing raises `IndexError` out of bounds;
the comparison and the swap are therefore modelled in `Option`, with `none`
for a raise. -/

section Sorters

variable {α : Type} [LinearOrder α] [Inhabited α]

/-- `arr[i] < arr[j]` on a Python list: `none` models the `IndexError`
raised when an index is out of range. -/
def pyLess (l : List α) (i j : Nat) : Option Bool :=
  if i < l.length ∧ j < l.length then some (decide (l.getD i default < l.getD j default))
  else none

/-- `arr[i], arr[j] = arr[j], arr[i]` on a Python list: both right-hand
sides are read first, then assigned; `none` models the `IndexError` raised
when an index is out of range. -/
def pySwap (l : List α) (i j : Nat) : Option (List α) :=
  if i < l.length ∧ j < l.length then
    some ((l.set i (l.getD j default)).set j (l.getD i default))
  else none

/-- The `while i <= gt` loop of `partition3` inside `utils.quick_sort`,
with the pivot fixed at position `last` (the source compares against
`container[last]` at every iteration, even after that position has been
overwritten by a swap).  The cursors are Python integers (`gt` can step to
`-1`), so they are modelled as `Int`; list accesses convert with `toNat`,
which agrees with Python indexing because every access in the loop happens
at a cursor in `[0, last]`.  Returns `(container, lt, gt)`. -/
def partition3Loop (last : Int) : Nat → List α → Int → Int → Int → List α × Int × Int
  | 0, l, lt, _i, gt => (l, lt, gt)
  | n+1, l, lt, i, gt =>
    if l.getD i.toNat default < l.getD last.toNat default then
      partition3Loop last n ((l.set lt.toNat (l.getD i.toNat default)).set i.toNat (l.getD lt.toNat default)) (lt+1) (i+1) gt
    else if l.getD last.toNat default < l.getD i.toNat default then
      partition3Loop last n ((l.set i.toNat (l.getD gt.toNat default)).set gt.toNat (l.getD i.toNat default)) lt i (gt-1)
    else
      partition3Loop last n l lt (i+1) gt

/-- `partition3(container, less, swap, last, begin)` from `utils.quick_sort`:
`pivot = last; lt = begin; i = begin; gt = last`, then the scan loop.  The
`while i <= gt` loop runs exactly `(gt + 1 - i)` iterations (every branch
shrinks that quantity by one), so it is driven by that exact count as a
structurally decreasing argument: iteration `n+1` with `i ≤ gt` ⟺ count
`> 0`, and the loop exits returning `(container, lt, gt)` when `i > gt`. -/
def partition3 (l : List α) (last b : Int) : List α × Int × Int :=
  partition3Loop last (last + 1 - b).toNat l b b last

/-- Embeds `utils.quick_sort` on a Python list of comparable keys.
`e` is `end` (one past the last element), `b` is `begin`.  The Python
function recurses without a structural measure, so the embedding carries
explicit fuel; every run in this file terminates long before the supplied
fuel is exhausted. -/
def quick_sort : Nat → List α → Int → Int → List α
  | 0, l, _, _ => l
  | fuel+1, l, e, b =>
    let last := e - 1
    if b < last then
      let p := partition3 l last b
      let l2 := quick_sort fuel p.1 p.2.1 b
      quick_sort fuel l2 e (p.2.2 + 1)
    else l

/-- The `find_min` closure of `utils.selection_sort_step`: scan
`range(begin+1, end)` keeping the index of the least element seen, driven
by the remaining iteration count (`e - i`).  `none` models an `IndexError`
from the comparison. -/
def findMinLoop (l : List α) : Nat → Nat → Nat → Option Nat
  | 0, res, _ => some res
  | n+1, res, i =>
      match pyLess l i res with
      | none => none
      | some true => findMinLoop l n i (i+1)
      | some false => findMinLoop l n res (i+1)

/-- Embeds `utils.selection_sort_step`: swap the element at `b` (`begin`)
with the least element of `[b, e)` (the scan runs over `range(b+1, e)`,
`e - (b+1)` iterations). -/
def selection_sort_step (l : List α) (e b : Nat) : Option (List α) :=
  match findMinLoop l (e - (b+1)) b (b+1) with
  | none => none
  | some m => pySwap l b m

/-- The calling pattern stated by the spec for the step-wise sorter:
`selection_sort_step` once per `begin` from `b` upward, `n` times, with
`end = e` fixed. -/
def selSortFrom (e : Nat) : Nat → Nat → List α → Option (List α)
  | _, 0, l => some l
  | b, n+1, l =>
    match selection_sort_step l e b with
    | none => none
    | some l2 => selSortFrom e (b+1) n l2

/-- Exhaustive selection sort: `selection_sort_step` once per `begin` from
`0` to `len - 1` with `end = len`. -/
def selection_sort_all (l : List α) : Option (List α) :=
  selSortFrom l.length 0 l.length l

end Sorters

/-! ## The sparse-table model (`openpyxl` worksheets as used by `xutils.py`) -/

/-- An openpyxl worksheet as the code uses it: 1-based bounds and a total
assignment of optional values to (row, column) positions.  A cell outside
`[1, maxRow] × [1, maxCol]` reads as empty. -/
structure Sheet where
  maxRow : Nat
  maxCol : Nat
  cells : Nat → Nat → Option Value

/-- The degenerate empty sheet (`max_row = max_column = 1`, empty corner):
the state of a freshly created destination worksheet. -/
def degenerate : Sheet := ⟨1, 1, fun _ _ => none⟩

/-- `ws.cell(r, c)` read access: openpyxl creates the cell, which can only
extend the dimensions (the value store is untouched). -/
def touch (s : Sheet) (r c : Nat) : Sheet :=
  { s with maxRow := max s.maxRow r, maxCol := max s.maxCol c }

/-- `ws.cell(r, c, v)`: the cell is created (bounds extend) and, only when
`v` is not `None`, its value is assigned. -/
def Sheet.cellW (s : Sheet) (r c : Nat) (v : Option Value) : Sheet :=
  { maxRow := max s.maxRow r
    maxCol := max s.maxCol c
    cells := fun r0 c0 =>
      if r0 = r ∧ c0 = c then
        match v with
        | some x => some x
        | none => s.cells r0 c0
      else s.cells r0 c0 }

/-- `destination.cell(r, c).value = None` in `clear_found_values`: a direct
value assignment, clearing the cell. -/
def Sheet.cellClear (s : Sheet) (r c : Nat) : Sheet :=
  { s with cells := fun r0 c0 => if r0 = r ∧ c0 = c then none else s.cells r0 c0 }

/-- `destination.append([x])` (with `x` not `None`): a new row after
`max_row` holding `x` in column 1.  See the file header for why the
openpyxl `_current_row` equals `max_row` at the call sites. -/
def Sheet.appendRow (s : Sheet) (x : Value) : Sheet :=
  { maxRow := s.maxRow + 1
    maxCol := s.maxCol
    cells := fun r0 c0 => if r0 = s.maxRow + 1 ∧ c0 = 1 then some x else s.cells r0 c0 }

/-- Python `list.index(v)` made partial: index of the first occurrence. -/
def pyIndex : List (Option Value) → Option Value → Option Nat
  | [], _ => none
  | x :: xs, v => if x = v then some 0 else (pyIndex xs v).map (· + 1)

/-- Embeds `xutils.get_class_names`: the values of row 1, columns
`1..max_column` (pure read; the validator uses the `touch`-threaded
variant below). -/
def get_class_names (s : Sheet) : List (Option Value) :=
  (List.range s.maxCol).map fun j => s.cells 1 (j+1)

/-- Embeds `xutils.get_record_names`: the values of column 1, rows
`1..max_row`. -/
def get_record_names (s : Sheet) : List (Option Value) :=
  (List.range s.maxRow).map fun i => s.cells (i+1) 1

/-- Embeds `xutils.has_empty_data_set`: scan rows `2..max_row` and columns
`2..max_column`; `true` iff every such cell is empty. -/
def has_empty_data_set (s : Sheet) : Bool :=
  (List.range' 2 (s.maxRow - 1)).all fun r =>
    (List.range' 2 (s.maxCol - 1)).all fun c => s.cells r c == none

/-! ## `xutils.merge` -/

/-- The `mapper` closure of `xutils.merge`.  Note: the source guard
`if str is None: return None` tests the *builtin* `str`, which is never
`None`, so the guard is dead and the mapper always yields a column; on a
miss it appends the class to row 1 (`destination.cell(1, max_column+1,
value)`, a no-op value write when `value` is `None`) and returns the new
`max_column`. -/
def mergeMapper (dst : Sheet) (dcls : List (Option Value)) (v : Option Value) : Sheet × Nat :=
  match pyIndex dcls v with
  | some i => (dst, i + 1)
  | none =>
      let d := dst.cellW 1 (dst.maxCol + 1) v
      (d, d.maxCol)

/-- The list comprehension `[mapper(destination, dst_classes, value) for
value in src_classes]`: sequential, threading the destination (the mapper
may append columns), against the fixed `dst_classes` snapshot. -/
def mergeMapAll (dst : Sheet) (dcls : List (Option Value)) : List (Option Value) → Sheet × List Nat
  | [] => (dst, [])
  | v :: vs =>
      let p := mergeMapper dst dcls v
      let q := mergeMapAll p.1 dcls vs
      (q.1, p.2 :: q.2)

/-- The inner copy loop of `xutils.merge`:
`for icol in range(1, len(src_dst_map)): destination.cell(irow,
src_dst_map[icol], row[icol])` — `mp` is the map with its first entry
dropped and `c` the 1-based source column (starting at 2). -/
def copyCells (src : Sheet) (r irow : Nat) : List Nat → Nat → Sheet → Sheet
  | [], _, d => d
  | m :: mp, c, d => copyCells src r irow mp (c+1) (d.cellW irow m (src.cells r c))

/-- One iteration of the row loop of `xutils.merge` for source row `r`:
skip empty or (under `ignore_blanks`) blank records, find the destination
row in the fixed `dst_records` snapshot or append it, then copy the row. -/
def mergeRow (drec : List (Option Value)) (mp : List Nat) (src : Sheet) (ib : Bool) (d : Sheet) (r : Nat) : Sheet :=
  match src.cells r 1 with
  | none => d
  | some rcd =>
      if ib && is_blank (some rcd) then d
      else
        let p : Sheet × Nat :=
          match pyIndex drec (some rcd) with
          | some i => (d, i + 1)
          | none =>
              let d2 := d.appendRow rcd
              (d2, d2.maxRow)
        copyCells src r p.2 (mp.drop 1) 2 p.1

/-- The row loop of `xutils.merge` (`for row in source.iter_rows(2, ...)`):
`n` rows remaining, `r` the current 1-based source row. -/
def mergeRows (drec : List (Option Value)) (mp : List Nat) (src : Sheet) (ib : Bool) : Nat → Nat → Sheet → Sheet
  | 0, _, d => d
  | n+1, r, d => mergeRows drec mp src ib n (r+1) (mergeRow drec mp src ib d r)

/-- Embeds `xutils.merge(destination, source, ignore_blanks)`. -/
def merge (dst src : Sheet) (ib : Bool) : Sheet :=
  let dcls := get_class_names dst
  let scls := get_class_names src
  let drec := get_record_names dst
  let p := mergeMapAll dst dcls scls
  mergeRows drec p.2 src ib (src.maxRow - 1) 2 p.1

/-! ## `xutils.column_swap` -/

/-- The payload of `exceptions.InvalidCellIndex` as raised by
`column_swap`. -/
structure CellIndexErr where
  function : String
  icol : Int
  irow : Int
  maxCol : Nat
  maxRow : Nat
deriving DecidableEq, Repr

/-- The in-place swap loop of `column_swap` (`for row in sheet.iter_rows():
row[i-1].value, row[j-1].value = ...`): exchange columns `i` and `j` in
every row. -/
def swapColumns (s : Sheet) (i j : Nat) : Sheet :=
  { s with cells := fun r c =>
      if c = i then s.cells r j
      else if c = j then s.cells r i
      else s.cells r c }

/-- Embeds `xutils.column_swap(sheet, i, j)` (indices are Python integers).
The degenerate-sheet early return precedes the bounds checks. -/
def column_swap (s : Sheet) (i j : Int) : Except CellIndexErr Sheet :=
  if 0 < i ∧ 0 < j ∧ s.maxCol = 1 ∧ s.maxRow = 1 ∧ s.cells 1 1 = none then
    .ok s
  else if i < 1 ∨ j < 1 then
    .error ⟨"column_swap", min i j, 1, s.maxCol, s.maxRow⟩
  else if (s.maxCol : Int) < i ∨ (s.maxCol : Int) < j then
    .error ⟨"column_swap", max i j, 1, s.maxCol, s.maxRow⟩
  else if i = j then .ok s
  else .ok (swapColumns s i.toNat j.toNat)

/-! ## `xutils.clear_found_values` -/

/-- The failure modes of `clear_found_values`:

* `recordNotFound` / `classNotFound` — a label lookup failed while building
  `src_dst_record_map` / `src_dst_classes_map` (raised as
  `ConsistencyError("Source data not found in destination.")` with a
  `Data record:` / `Lipid class:` detail line);
* `cellNotFound r c` — the destination cell for source position `(r, c)`
  is empty (same message, per-cell detail lines);
* `valueDiffers r c` — `ConsistencyError("Source data differs for
  destination.")`;
* `typeErr a b` — the `TypeError` escaping from `math.isclose` when either
  value is not a number (not a `ConsistencyError`; it propagates to the
  caller). -/
inductive ClearErr where
  | recordNotFound (v : Option Value)
  | classNotFound (v : Option Value)
  | cellNotFound (r c : Nat)
  | valueDiffers (r c : Nat)
  | typeErr (a b : Value)
deriving DecidableEq, Repr

/-- The `mapper` closure of `clear_found_values` over a whole source label
list: the first label missing from the destination list aborts with that
label (Python: the comprehension raises on the first `mapper` failure).
As in `merge`, the `if str is None` guard is dead code. -/
def clearMapAll (dstItems : List (Option Value)) : List (Option Value) → Except (Option Value) (List Nat)
  | [] => .ok []
  | v :: vs =>
      match pyIndex dstItems v with
      | some i => (clearMapAll dstItems vs).map fun l => (i + 1) :: l
      | none => .error v

/-- The `trim_class_name` closure: `str.strip` on a string, identity on
`None`.  Python raises `AttributeError` on a non-string class name; the
embedding totalises that case (see the file header). -/
def trim_class_name : Option Value → Option Value
  | none => none
  | some (.str s) => some (.str s.trim)
  | some (.num q) => some (.num q)

/-- `math.isclose(a, b, rel_tol=1e-12, abs_tol=1e-12)` on exact rationals:
`abs(a-b) <= max(rel_tol * max(abs(a), abs(b)), abs_tol)`. -/
def isclose (a b : ℚ) : Bool :=
  decide (|a - b| ≤ max (max |a| |b| * (1 / 10 ^ 12)) (1 / 10 ^ 12))

/-- `math.isclose` on cell values: raises `TypeError` (modelled as
`.error ()`) unless both operands are numbers. -/
def valueClose : Value → Value → Except Unit Bool
  | .num a, .num b => .ok (isclose a b)
  | _, _ => .error ()

/-- The body of the inner column loop of `clear_found_values` for source
position `(r, c)`: skip empty source cells; otherwise resolve the
destination cell through the two maps and compare.  On an error the
returned sheet is the destination at the moment of the raise. -/
def clearCell (src : Sheet) (rmap cmap : List Nat) (r c : Nat) (dst : Sheet) : Except (ClearErr × Sheet) Sheet :=
  match src.cells r c with
  | none => .ok dst
  | some sv =>
      let dr := rmap.getD (r - 1) 0
      let dc := cmap.getD (c - 1) 0
      match dst.cells dr dc with
      | none => .error (.cellNotFound r c, dst)
      | some dv =>
          match valueClose sv dv with
          | .error _ => .error (.typeErr sv dv, dst)
          | .ok false => .error (.valueDiffers r c, dst)
          | .ok true => .ok (dst.cellClear dr dc)

/-- The inner column loop of `clear_found_values`
(`for src_col in range(2, source.max_column + 1)`). -/
def clearCols (src : Sheet) (rmap cmap : List Nat) (r : Nat) : Nat → Nat → Sheet → Except (ClearErr × Sheet) Sheet
  | _, 0, dst => .ok dst
  | c, n+1, dst =>
      match clearCell src rmap cmap r c dst with
      | .error e => .error e
      | .ok d2 => clearCols src rmap cmap r (c+1) n d2

/-- The outer row loop of `clear_found_values`
(`for src_row in range(2, source.max_row + 1)`), with the row-level skips
for empty and (under `ignore_blanks`) blank records. -/
def clearRows (src : Sheet) (rmap cmap : List Nat) (ib : Bool) : Nat → Nat → Sheet → Except (ClearErr × Sheet) Sheet
  | _, 0, dst => .ok dst
  | r, n+1, dst =>
      let step : Except (ClearErr × Sheet) Sheet :=
        match src.cells r 1 with
        | none => .ok dst
        | some rv =>
            if ib && is_blank (some rv) then .ok dst
            else clearCols src rmap cmap r 2 (src.maxCol - 1) dst
      match step with
      | .error e => .error e
      | .ok d2 => clearRows src rmap cmap ib (r+1) n d2

/-- Embeds `xutils.clear_found_values(destination, source, ignore_blanks,
trim_class_names)`.  The record and class maps are built in full (raising
`ConsistencyError` on a missed lookup, with the destination untouched)
before the clearing loop runs. -/
def clear_found_values (dst src : Sheet) (ib tc : Bool) : Except (ClearErr × Sheet) Sheet :=
  let drec := get_record_names dst
  let srec0 := get_record_names src
  let dcls := get_class_names dst
  let scls := get_class_names src
  let srec := if ib then srec0.map (fun v => if is_blank v then none else v) else srec0
  match clearMapAll drec srec with
  | .error v => .error (.recordNotFound v, dst)
  | .ok rmap =>
      match clearMapAll dcls (scls.map fun v => if tc then trim_class_name v else v) with
      | .error v => .error (.classNotFound v, dst)
      | .ok cmap => clearRows src rmap cmap ib 2 (src.maxRow - 1) dst

/-! ## `xutils.validate_input`

The validator only ever *reads* cells, but in openpyxl a read access
creates the cell, which can grow `max_row`/`max_column` when it is out of
bounds.  Claim C9 is precisely about this: the embedding therefore threads
the sheet through every access (`touch`), and C9 proves the threaded sheet
comes back unchanged.  Findings are appended to the accumulator list, and
the cross-workbook context is an explicit association list keyed by
`(sheet title, record, class)` as in the source. -/

/-- One `InputInconsistency` (message, workbook name, sheet title, row,
column). -/
structure Finding where
  message : String
  workbook : String
  sheet : String
  row : Nat
  col : Nat
deriving DecidableEq, Repr

/-- A key of the cross-workbook validation dictionary:
`(sheet.title, record, cls)`. -/
abbrev CtxKey := String × Value × Value

/-- A stored origin: `(workbook name, row, column)`. -/
abbrev CtxVal := String × Nat × Nat

/-- The cross-workbook validation dictionary, as an association list in
insertion order. -/
abbrev Ctx := List (CtxKey × CtxVal)

/-- `context.get(key, None)`. -/
def ctxGet (ctx : Ctx) (k : CtxKey) : Option CtxVal :=
  match List.find? (fun e => decide (e.1 = k)) ctx with
  | some e => some e.2
  | none => none

/-- Read the `n` cells `(r, c), (r, c+1), ...` threading the access
effect: the value list together with the touched sheet (one row of
`iter_rows`). -/
def readCellsRow (r : Nat) : Nat → Nat → Sheet → List (Option Value) × Sheet
  | _, 0, s => ([], s)
  | c, n+1, s =>
      let v := s.cells r c
      let q := readCellsRow r (c+1) n (touch s r c)
      (v :: q.1, q.2)

/-- Read the `n` cells `(r, c), (r+1, c), ...` threading the access effect
(one column of `iter_cols`). -/
def readCellsCol (c : Nat) : Nat → Nat → Sheet → List (Option Value) × Sheet
  | _, 0, s => ([], s)
  | r, n+1, s =>
      let v := s.cells r c
      let q := readCellsCol c (r+1) n (touch s r c)
      (v :: q.1, q.2)

/-- `get_class_names` with the access effect (row 1, columns
`1..max_column`). -/
def get_class_names_t (s : Sheet) : List (Option Value) × Sheet :=
  readCellsRow 1 1 s.maxCol s

/-- `get_record_names` with the access effect (column 1, rows
`1..max_row`). -/
def get_record_names_t (s : Sheet) : List (Option Value) × Sheet :=
  readCellsCol 1 1 s.maxRow s

/-- The inner `for j in range(i+1, len(names))` scan of the duplicate-label
checks in `validate_sheet`.  State: `(already_found, findings)`; `mk k`
builds the finding for position index `k`; `i0` is the outer index. -/
def dupInner (names : List (Option Value)) (v : Value) (mk : Nat → Finding) (i0 : Nat) :
    Nat → Nat → List Value × List Finding → List Value × List Finding
  | _, 0, st => st
  | j, n+1, st =>
      let st2 :=
        if names.getD j none = some v then
          let p := if v ∈ st.1 then st else (st.1 ++ [v], st.2 ++ [mk i0])
          (p.1, p.2 ++ [mk j])
        else st
      dupInner names v mk i0 (j+1) n st2

/-- The outer `for i, v in enumerate(names)` loop of the duplicate-label
checks: skip empty labels, labels already reported, and labels matching
`skip` (the `ignore_blanks` record skip). -/
def dupOuter (names : List (Option Value)) (mk : Value → Nat → Finding) (skip : Value → Bool) :
    Nat → Nat → List Value × List Finding → List Finding
  | _, 0, st => st.2
  | i, n+1, st =>
      match names.getD i none with
      | none => dupOuter names mk skip (i+1) n st
      | some v =>
          if v ∈ st.1 then dupOuter names mk skip (i+1) n st
          else if skip v then dupOuter names mk skip (i+1) n st
          else dupOuter names mk skip (i+1) n
            (dupInner names v (mk v) i (i+1) (names.length - (i+1)) st)

/-- The `for icol in range(2, sheet.max_column)` scan over a blank row in
`validate_sheet` (note the bound: the source stops *before* the last
column). -/
def blankCols (name title : String) (irow : Nat) :
    Nat → Nat → Sheet × List Finding → Sheet × List Finding
  | _, 0, st => st
  | icol, n+1, st =>
      let v := st.1.cells irow icol
      let s2 := touch st.1 irow icol
      let fs2 :=
        if v ≠ none then st.2 ++ [⟨"Non-empty cell in a blank.", name, title, irow, icol⟩]
        else st.2
      blankCols name title irow (icol+1) n (s2, fs2)

/-- The `for i, rec in enumerate(rec_names)` loop of the blank-row check
(only rows whose record `is_blank`). -/
def blankRows (name title : String) (recNames : List (Option Value)) :
    Nat → Nat → Sheet × List Finding → Sheet × List Finding
  | _, 0, st => st
  | i, n+1, st =>
      if is_blank (recNames.getD i none) then
        blankRows name title recNames (i+1) n
          (blankCols name title (i+1) 2 (st.1.maxCol - 2) st)
      else blankRows name title recNames (i+1) n st

/-- Embeds the `validate_sheet` closure of `validate_input` for one sheet:
corner-cell check with early return, duplicate classes, duplicate records,
and (unless `ignore_blanks`) the blank-row data check. -/
def validate_sheet (name title : String) (ib : Bool) (s : Sheet) (fs : List Finding) :
    Sheet × List Finding :=
  let v11 := s.cells 1 1
  let s0 := touch s 1 1
  match v11 with
  | some _ =>
      (s0, fs ++ [⟨"Non-empty cell A1 (skipping the rest of the sheet)", name, title, 1, 1⟩])
  | none =>
      let pc := get_class_names_t s0
      let fs1 := dupOuter pc.1
        (fun v k => ⟨"Duplicate class '" ++ vstr v ++ "' within one data sheet.", name, title, 1, k+1⟩)
        (fun _ => false) 0 pc.1.length ([], fs)
      let pr := get_record_names_t pc.2
      let fs2 := dupOuter pr.1
        (fun v k => ⟨"Duplicate record '" ++ vstr v ++ "' within one data sheet.", name, title, k+1, 1⟩)
        (fun v => ib && is_blank (some v)) 0 pr.1.length ([], fs1)
      if ib then (pr.2, fs2)
      else blankRows name title pr.1 0 pr.1.length (pr.2, fs2)

/-- Inner scan of `validate_empty_cells`, first phase: rows
`2..max_row` of a column `icol` whose class label is empty. -/
def emptyColScan (name title : String) (icol : Nat) :
    Nat → Nat → Sheet × List Finding → Sheet × List Finding
  | _, 0, st => st
  | irow, n+1, st =>
      let v := st.1.cells irow icol
      let s2 := touch st.1 irow icol
      let fs2 :=
        if v ≠ none then
          st.2 ++ [⟨"Non-empty cell in a column with an empty class name.", name, title, irow, icol⟩]
        else st.2
      emptyColScan name title icol (irow+1) n (s2, fs2)

/-- Outer loop of `validate_empty_cells`, first phase: columns
`2..max_column`, skipping columns with a non-empty class label. -/
def emptyColsOuter (name title : String) :
    Nat → Nat → Sheet × List Finding → Sheet × List Finding
  | _, 0, st => st
  | icol, n+1, st =>
      let v := st.1.cells 1 icol
      let s2 := touch st.1 1 icol
      if v ≠ none then emptyColsOuter name title (icol+1) n (s2, st.2)
      else
        emptyColsOuter name title (icol+1) n
          (emptyColScan name title icol 2 (s2.maxRow - 1) (s2, st.2))

/-- Inner scan of `validate_empty_cells`, second phase: columns
`2..max_column` of a row `irow` whose record label is empty. -/
def emptyRowScan (name title : String) (irow : Nat) :
    Nat → Nat → Sheet × List Finding → Sheet × List Finding
  | _, 0, st => st
  | icol, n+1, st =>
      let v := st.1.cells irow icol
      let s2 := touch st.1 irow icol
      let fs2 :=
        if v ≠ none then
          st.2 ++ [⟨"Non-empty cell in a row with an empty record.", name, title, irow, icol⟩]
        else st.2
      emptyRowScan name title irow (icol+1) n (s2, fs2)

/-- Outer loop of `validate_empty_cells`, second phase: rows `2..max_row`,
skipping rows with a non-empty record label. -/
def emptyRowsOuter (name title : String) :
    Nat → Nat → Sheet × List Finding → Sheet × List Finding
  | _, 0, st => st
  | irow, n+1, st =>
      let v := st.1.cells irow 1
      let s2 := touch st.1 irow 1
      if v ≠ none then emptyRowsOuter name title (irow+1) n (s2, st.2)
      else
        emptyRowsOuter name title (irow+1) n
          (emptyRowScan name title irow 2 (s2.maxCol - 1) (s2, st.2))

/-- Embeds the `validate_empty_cells` closure of `validate_input`. -/
def validate_empty_cells (name title : String) (s : Sheet) (fs : List Finding) :
    Sheet × List Finding :=
  let p := emptyColsOuter name title 2 (s.maxCol - 1) (s, fs)
  emptyRowsOuter name title 2 (p.1.maxRow - 1) p

/-- The message of a cross-workbook duplicate finding. -/
def dupXMsg (cls rcd : Value) : String :=
  "Duplicate class '" ++ vstr cls ++ "' and record '" ++ vstr rcd ++
    "' within one data sheet across workbooks."

/-- Inner loop of `validate_duplicates_across_workbooks`: for a fixed
record at outer index `i`, scan the class list, registering unseen
`(title, record, class)` keys in the context and reporting clashes whose
first origin is a *different* workbook against both origins. -/
def crossInner (name title : String) (rcd : Value) (i : Nat) (clsNames : List (Option Value)) :
    Nat → Nat → Ctx × List Finding → Ctx × List Finding
  | _, 0, st => st
  | j, n+1, st =>
      match clsNames.getD j none with
      | none => crossInner name title rcd i clsNames (j+1) n st
      | some cls =>
          let key : CtxKey := (title, rcd, cls)
          match ctxGet st.1 key with
          | none =>
              crossInner name title rcd i clsNames (j+1) n
                (st.1 ++ [(key, (name, i+1, j+1))], st.2)
          | some org =>
              if org.1 = name then crossInner name title rcd i clsNames (j+1) n st
              else
                crossInner name title rcd i clsNames (j+1) n
                  (st.1, st.2 ++
                    [⟨dupXMsg cls rcd, org.1, title, org.2.1, org.2.2⟩,
                     ⟨dupXMsg cls rcd, name, title, i+1, j+1⟩])

/-- Outer loop of `validate_duplicates_across_workbooks`: iterate the
record names (skipping empty and, under `ignore_blanks`, blank records);
the class list is re-read from the sheet on every iteration, as in the
source. -/
def crossOuter (name title : String) (ib : Bool) (recNames : List (Option Value)) :
    Nat → Nat → Sheet × Ctx × List Finding → Sheet × Ctx × List Finding
  | _, 0, st => st
  | i, n+1, st =>
      match recNames.getD i none with
      | none => crossOuter name title ib recNames (i+1) n st
      | some rcd =>
          if ib && is_blank (some rcd) then crossOuter name title ib recNames (i+1) n st
          else
            let pc := get_class_names_t st.1
            let q := crossInner name title rcd i pc.1 0 pc.1.length (st.2.1, st.2.2)
            crossOuter name title ib recNames (i+1) n (pc.2, q.1, q.2)

/-- Embeds the `validate_duplicates_across_workbooks` closure of
`validate_input`. -/
def validate_duplicates_across_workbooks (name title : String) (ib : Bool)
    (s : Sheet) (ctx : Ctx) (fs : List Finding) : Sheet × Ctx × List Finding :=
  let pr := get_record_names_t s
  crossOuter name title ib pr.1 0 pr.1.length (pr.2, ctx, fs)

/-- Embeds `xutils.validate_input(workbook, name, ignore_blanks, result,
context)`: run the three per-sheet validators over every sheet of the
workbook (a list of `(title, sheet)` pairs), threading the findings
accumulator and the cross-workbook context, and returning the (touched)
sheets alongside. -/
def validate_input : List (String × Sheet) → String → Bool → List Finding → Ctx →
    List (String × Sheet) × List Finding × Ctx
  | [], _, _, fs, ctx => ([], fs, ctx)
  | (title, s) :: rest, name, ib, fs, ctx =>
      let p1 := validate_sheet name title ib s fs
      let p2 := validate_empty_cells name title p1.1 p1.2
      let p3 := validate_duplicates_across_workbooks name title ib p2.1 ctx p2.2
      let q := validate_input rest name ib p3.2.2 p3.2.1
      ((title, p3.1) :: q.1, q.2.1, q.2.2)

/-! ## Concrete fixtures for the claim demonstrations -/

/-- Build a sheet from a row-major list of optional values (row 1 first);
bounds are clamped to at least 1 as in openpyxl. -/
def Sheet.ofLists (rows : List (List (Option Value))) : Sheet :=
  { maxRow := max rows.length 1
    maxCol := max ((rows.map List.length).foldr max 0) 1
    cells := fun r c =>
      if r = 0 ∨ c = 0 then none
      else (rows.getD (r-1) []).getD (c-1) none }

/-- Shorthand for a string cell. -/
def vs (s : String) : Option Value := some (.str s)

/-- Shorthand for a numeric cell. -/
def vn (q : ℚ) : Option Value := some (.num q)

/-- Does a `clear_found_values` run end in the `TypeError` escaping from
`math.isclose`? -/
def resTypeErr : Except (ClearErr × Sheet) Sheet → Bool
  | .error (.typeErr _ _, _) => true
  | _ => false

/-- A validation-clean sheet holding one *string* data value: corner empty,
class `"C"`, record `"R"`, value `"v"` at (2,2). -/
def sheetC1 : Sheet := Sheet.ofLists [[none, vs "C"], [vs "R", vs "v"]]

/-- A sheet with a non-empty corner cell `"X"` and a data value at (2,2)
under an empty class label and an empty record label. -/
def sheetC3 : Sheet := Sheet.ofLists [[vs "X", none], [none, vn 1]]

/-- A sheet whose single data row is a blank sample (`"blank1"`) holding a
value in the *last* column (column 2 = `max_column`). -/
def sheetC4 : Sheet := Sheet.ofLists [[none, vs "C"], [vs "blank1", vn 5]]

/-- Destination for the C5 counterexample: string value `"x"` at (2,2). -/
def dstC5s : Sheet := Sheet.ofLists [[none, vs "C"], [vs "R", vs "x"]]

/-- Source for the C5 counterexample: the *same* string value `"x"` at the
same record/class position. -/
def srcC5s : Sheet := Sheet.ofLists [[none, vs "C"], [vs "R", vs "x"]]

/-- Numeric destination used by the C5 amended-claim witness: value `2` at
(2,2). -/
def dstC5n : Sheet := Sheet.ofLists [[none, vs "C"], [vs "R", vn 2]]

/-- Numeric source used by the C5 amended-claim witness: value `7` at
(2,2). -/
def srcC5n : Sheet := Sheet.ofLists [[none, vs "C"], [vs "R", vn 7]]

/-- Source for the C10 witness: record `"Q"` does not occur in
`dstC5n`. -/
def srcC10 : Sheet := Sheet.ofLists [[none, vs "C"], [vs "Q", vn 7]]

/-- Second source table for the C6 witness: class `"D"`, record `"S"`,
value `3` — disjoint record/class labels from `sheetC1`. -/
def sheetC6B : Sheet := Sheet.ofLists [[none, vs "D"], [vs "S", vn 3]]

/-! ## Spec notions for the merge claim (C6)

Claim C6 speaks about "the set of (row label, column label, value) triples"
of a sheet and about validity "as enforced by validation".  `triples`
renders the former; `WfSrc`/`WfDest` render, as explicit propositions, the
facts that acceptance by `validate_input` guarantees about a source sheet
and that `merge` maintains for the accumulating destination (each field is
named after the check of `validate_input` or the structural property of
`merge` it comes from). -/

/-- The data triples of a sheet: `(record, class, value)` for every
non-empty cell at a data position `(r ≥ 2, c ≥ 2)` whose row has a record
label in column 1 and whose column has a class label in row 1. -/
def triples (s : Sheet) : Set (Value × Value × Value) :=
  { t | ∃ r c, 2 ≤ r ∧ 2 ≤ c ∧
      s.cells r 1 = some t.1 ∧ s.cells 1 c = some t.2.1 ∧ s.cells r c = some t.2.2 }

/-- The triples a source sheet contributes to a merge: its data triples,
with blank-sample rows excluded when `ignore_blanks` is set. -/
def srcTriples (ib : Bool) (s : Sheet) : Set (Value × Value × Value) :=
  { t | t ∈ triples s ∧ ¬ (ib = true ∧ is_blank (some t.1) = true) }

/-- Two triple sets agree on every `(record, class)` pair they share. -/
def TriCompat (A B : Set (Value × Value × Value)) : Prop :=
  ∀ rcd cls v w, (rcd, cls, v) ∈ A → (rcd, cls, w) ∈ B → v = w

/-- What acceptance by `validate_input` (with no findings) guarantees for a
single sheet in the source role, restricted to the facts claim C6 needs:
positive 1-based bounds (an openpyxl invariant), empty corner cell (check
(a)), values only inside the bounds, unique non-empty class labels (check
(b)), unique non-empty record labels among merged rows (check (c): under
`ignore_blanks` duplicate *blank* records are tolerated, and those rows are
skipped by `merge` anyway), empty columns under empty class labels and
empty rows under empty record labels (check (e)), and record labels that
are strings (the validator calls `is_blank`, i.e. `record.casefold()`, on
every record, so a sheet with a non-string record label makes Python
`validate_input` raise instead of accepting). -/
structure WfSrc (ib : Bool) (s : Sheet) : Prop where
  rowPos : 1 ≤ s.maxRow
  colPos : 1 ≤ s.maxCol
  corner : s.cells 1 1 = none
  inB : ∀ r c, s.cells r c ≠ none → 1 ≤ r ∧ r ≤ s.maxRow ∧ 1 ≤ c ∧ c ≤ s.maxCol
  clsU : ∀ c c2, 2 ≤ c → 2 ≤ c2 → s.cells 1 c ≠ none → s.cells 1 c = s.cells 1 c2 → c = c2
  recU : ∀ r r2, 2 ≤ r → 2 ≤ r2 → s.cells r 1 ≠ none →
    ¬ (ib = true ∧ is_blank (s.cells r 1) = true) → s.cells r 1 = s.cells r2 1 → r = r2
  noneCls : ∀ r c, 2 ≤ r → 2 ≤ c → s.cells 1 c = none → s.cells r c = none
  noneRec : ∀ r c, 2 ≤ r → 2 ≤ c → s.cells r 1 = none → s.cells r c = none
  recStr : ∀ r v, 2 ≤ r → s.cells r 1 = some v → ∃ t, v = Value.str t

/-- The structural invariant of a sheet in the destination role (the
degenerate sheet satisfies it, and `merge` preserves it): like `WfSrc` but
with *all* record labels unique. -/
structure WfDest (s : Sheet) : Prop where
  rowPos : 1 ≤ s.maxRow
  colPos : 1 ≤ s.maxCol
  corner : s.cells 1 1 = none
  inB : ∀ r c, s.cells r c ≠ none → 1 ≤ r ∧ r ≤ s.maxRow ∧ 1 ≤ c ∧ c ≤ s.maxCol
  clsU : ∀ c c2, 2 ≤ c → 2 ≤ c2 → s.cells 1 c ≠ none → s.cells 1 c = s.cells 1 c2 → c = c2
  recU : ∀ r r2, 2 ≤ r → 2 ≤ r2 → s.cells r 1 ≠ none → s.cells r 1 = s.cells r2 1 → r = r2
  noneCls : ∀ r c, 2 ≤ r → 2 ≤ c → s.cells 1 c = none → s.cells r c = none
  noneRec : ∀ r c, 2 ≤ r → 2 ≤ c → s.cells r 1 = none → s.cells r c = none

/-- Folding `merge` over a list of source sheets in order. -/
def foldMerge (ib : Bool) : Sheet → List Sheet → Sheet
  | d, [] => d
  | d, s :: rest => foldMerge ib (merge d s ib) rest

/-- A mutually valid input set for one sheet name, as enforced by
`validate_input` across workbooks: every sheet is source-well-formed and
any two sheets (including a sheet with itself, which holds automatically)
agree on shared `(record, class)` pairs. -/
def ValidSet (ib : Bool) (L : List Sheet) : Prop :=
  (∀ s ∈ L, WfSrc ib s) ∧
  ∀ s ∈ L, ∀ s2 ∈ L, TriCompat (srcTriples ib s) (srcTriples ib s2)

/-- The intermediate shape of the destination after the class-mapping phase
of `merge` (`mergeMapAll`): `d` extends `d0` by freshly appended class
labels in row 1, columns `(d0.maxCol, d.maxCol]`, everything else
untouched. -/
structure ClassExt (d0 d : Sheet) : Prop where
  mr : d.maxRow = d0.maxRow
  mc : d0.maxCol ≤ d.maxCol
  low : ∀ r c, ¬ (r = 1 ∧ d0.maxCol < c ∧ c ≤ d.maxCol) → d.cells r c = d0.cells r c

/-- The triple contributed by source row `ρ` at some column: the row's
record (with the blank filter), a class label and a value in that column. -/
def rowTriple (s : Sheet) (ib : Bool) (ρ : Nat) (t : Value × Value × Value) : Prop :=
  s.cells ρ 1 = some t.1 ∧ ¬ (ib = true ∧ is_blank (some t.1) = true) ∧
  ∃ c, 2 ≤ c ∧ s.cells 1 c = some t.2.1 ∧ s.cells ρ c = some t.2.2

/-- The induction invariant of the row phase of `merge`: after the rows
`[2, a)` of `s` have been processed into `dcur` (starting from the
phase-1 result `d1`, which extended the original destination `d0`):
row 1 is untouched, the original record column is untouched, new rows
carry records of processed source rows, well-formedness is maintained,
rows of `d0` whose record is not among the processed source records are
wholly untouched, and the triples of `dcur` are exactly the triples of
`d0` plus the triples of the processed source rows. -/
structure RowsInv (d0 d1 s : Sheet) (ib : Bool) (a : Nat) (dcur : Sheet) : Prop where
  mc : dcur.maxCol = d1.maxCol
  mr : d1.maxRow ≤ dcur.maxRow
  row1 : ∀ c, dcur.cells 1 c = d1.cells 1 c
  inB : ∀ r c, dcur.cells r c ≠ none → 1 ≤ r ∧ r ≤ dcur.maxRow ∧ 1 ≤ c ∧ c ≤ dcur.maxCol
  oldRec : ∀ r, r ≤ d1.maxRow → dcur.cells r 1 = d0.cells r 1
  newRecSrc : ∀ r, d1.maxRow < r → r ≤ dcur.maxRow →
    ∃ ρ, 2 ≤ ρ ∧ ρ < a ∧ s.cells ρ 1 = dcur.cells r 1 ∧ dcur.cells r 1 ≠ none ∧
      ¬ (ib = true ∧ is_blank (dcur.cells r 1) = true)
  recU : ∀ r r2, 2 ≤ r → 2 ≤ r2 → dcur.cells r 1 ≠ none →
    dcur.cells r 1 = dcur.cells r2 1 → r = r2
  noneCls : ∀ r c, 2 ≤ r → 2 ≤ c → dcur.cells 1 c = none → dcur.cells r c = none
  noneRec : ∀ r c, 2 ≤ r → 2 ≤ c → dcur.cells r 1 = none → dcur.cells r c = none
  oldRows : ∀ r c, 2 ≤ r → r ≤ d1.maxRow →
    (∀ ρ, 2 ≤ ρ → ρ < a → s.cells ρ 1 ≠ none →
      ¬ (ib = true ∧ is_blank (s.cells ρ 1) = true) → s.cells ρ 1 ≠ d0.cells r 1) →
    dcur.cells r c = d0.cells r c
  tri : ∀ t, t ∈ triples dcur ↔
    (t ∈ triples d0 ∨ ∃ ρ, 2 ≤ ρ ∧ ρ < a ∧ rowTriple s ib ρ t)

/-- Uniqueness of the non-empty class labels of row 1 (columns ≥ 2). -/
def Row1U (d : Sheet) : Prop :=
  ∀ c c2, 2 ≤ c → 2 ≤ c2 → d.cells 1 c ≠ none → d.cells 1 c = d.cells 1 c2 → c = c2

/-- The class-map property established by phase 1 of `merge` for the final
phase-1 destination `d1`: entry `k` of the map points at a column of `d1`
whose row-1 label is exactly source class `k` (0-based). -/
def MapSpec (d1 s : Sheet) (mp : List Nat) : Prop :=
  mp.length = s.maxCol ∧
  ∀ k, k < s.maxCol → 1 ≤ mp.getD k 0 ∧ mp.getD k 0 ≤ d1.maxCol ∧
    d1.cells 1 (mp.getD k 0) = (get_class_names s).getD k none

/-- The union of the triples contributed by a list of source sheets. -/
def unionSrc (ib : Bool) : List Sheet → Set (Value × Value × Value)
  | [] => ∅
  | s :: rest => srcTriples ib s ∪ unionSrc ib rest

/-! ## Claim C10 — label-lookup failure leaves the destination untouched -/

/-- Is a `clear_found_values` failure a label-lookup failure (the
"Source data not found in destination." error raised while building the
record/class maps, as opposed to the per-cell errors of the clearing
loop)? -/
def ClearErr.isLookup : ClearErr → Bool
  | .recordNotFound _ => true
  | .classNotFound _ => true
  | _ => false

/-- The per-cell check never produces a label-lookup failure. -/
theorem clearCell_no_lookup (src : Sheet) (rmap cmap : List Nat) (r c : Nat) (dst : Sheet)
    (e : ClearErr) (d : Sheet) (h : clearCell src rmap cmap r c dst = .error (e, d)) :
    e.isLookup = false := by
  unfold clearCell at h
  cases hs : src.cells r c with
  | none => rw [hs] at h; cases h
  | some sv =>
    rw [hs] at h
    dsimp only at h
    cases hd : dst.cells (rmap.getD (r-1) 0) (cmap.getD (c-1) 0) with
    | none =>
      rw [hd] at h
      simp only [Except.error.injEq, Prod.mk.injEq] at h
      rw [← h.1]
      rfl
    | some dv =>
      rw [hd] at h
      dsimp only at h
      cases hv : valueClose sv dv with
      | error u =>
        rw [hv] at h
        simp only [Except.error.injEq, Prod.mk.injEq] at h
        rw [← h.1]
        rfl
      | ok b =>
        rw [hv] at h
        cases b with
        | false =>
          simp only [Except.error.injEq, Prod.mk.injEq] at h
          rw [← h.1]
          rfl
        | true => cases h

/-- The inner clearing loop never produces a label-lookup failure. -/
theorem clearCols_no_lookup (src : Sheet) (rmap cmap : List Nat) (r : Nat) :
    ∀ (n c : Nat) (dst : Sheet) (e : ClearErr) (d : Sheet),
      clearCols src rmap cmap r c n dst = .error (e, d) → e.isLookup = false := by
  intro n
  induction n with
  | zero => intro c dst e d h; cases h
  | succ n ih =>
    intro c dst e d h
    unfold clearCols at h
    cases hc : clearCell src rmap cmap r c dst with
    | error p =>
      rw [hc] at h
      simp only [Except.error.injEq] at h
      subst h
      exact clearCell_no_lookup src rmap cmap r c dst e d hc
    | ok d2 =>
      rw [hc] at h
      exact ih (c+1) d2 e d h

/-- The row clearing loop never produces a label-lookup failure. -/
theorem clearRows_no_lookup (src : Sheet) (rmap cmap : List Nat) (ib : Bool) :
    ∀ (n r : Nat) (dst : Sheet) (e : ClearErr) (d : Sheet),
      clearRows src rmap cmap ib r n dst = .error (e, d) → e.isLookup = false := by
  intro n
  induction n with
  | zero => intro r dst e d h; cases h
  | succ n ih =>
    intro r dst e d h
    unfold clearRows at h
    cases hs : src.cells r 1 with
    | none =>
      rw [hs] at h
      exact ih (r+1) dst e d h
    | some rv =>
      rw [hs] at h
      dsimp only at h
      by_cases hb : (ib && is_blank (some rv)) = true
      · rw [if_pos hb] at h
        exact ih (r+1) dst e d h
      · rw [if_neg hb] at h
        cases hc : clearCols src rmap cmap r 2 (src.maxCol - 1) dst with
        | error p =>
          rw [hc] at h
          simp only [Except.error.injEq] at h
          subst h
          exact clearCols_no_lookup src rmap cmap r (src.maxCol - 1) 2 dst e d hc
        | ok d2 =>
          rw [hc] at h
          exact ih (r+1) d2 e d h

/-- Claim C10: when `clear_found_values` raises the "Source data not found
in destination." consistency error because a source record or (possibly
trimmed) class label has no match among the destination's labels, the
destination carried at the raise is exactly the destination that was
passed in: both maps are built in full before the clearing loop nulls any
cell, so a label-lookup failure is atomic with respect to the
destination. -/
theorem c10_lookup_failure_atomic (dst src : Sheet) (ib tc : Bool) (e : ClearErr) (d : Sheet)
    (h : clear_found_values dst src ib tc = .error (e, d)) (he : e.isLookup = true) :
    d = dst := by
  unfold clear_found_values at h
  dsimp only at h
  cases hr : clearMapAll (get_record_names dst)
      (if ib then (get_record_names src).map (fun v => if is_blank v then none else v)
       else get_record_names src) with
  | error v =>
    rw [hr] at h
    simp only [Except.error.injEq, Prod.mk.injEq] at h
    exact h.2.symm
  | ok rmap =>
    rw [hr] at h
    cases hcm : clearMapAll (get_class_names dst)
        ((get_class_names src).map fun v => if tc then trim_class_name v else v) with
    | error v =>
      rw [hcm] at h
      simp only [Except.error.injEq, Prod.mk.injEq] at h
      exact h.2.symm
    | ok cmap =>
      rw [hcm] at h
      have := clearRows_no_lookup src rmap cmap ib (src.maxRow - 1) 2 dst e d h
      rw [he] at this
      cases this

/-- Witness for `c10_lookup_failure_atomic`: `srcC10`'s record `"Q"` is
missing from `dstC5n`, the call fails with the record-lookup error, and
the carried destination is the original one. -/
theorem c10_witness :
    clear_found_values dstC5n srcC10 false false =
      .error (.recordNotFound (vs "Q"), dstC5n) ∧
    (ClearErr.recordNotFound (vs "Q")).isLookup = true ∧
    dstC5n = dstC5n :=
  ⟨rfl, rfl,
    c10_lookup_failure_atomic dstC5n srcC10 false false
      (.recordNotFound (vs "Q")) dstC5n rfl rfl⟩

/-! ## Selection-sort correctness (claim C8) -/

section SelSortProof

variable {α : Type} [LinearOrder α] [Inhabited α]

theorem getD_set_self (l : List α) (i : Nat) (x : α) (h : i < l.length) (d : α) :
    (l.set i x).getD i d = x := by
  simp [List.getD_eq_getElem?_getD, List.getElem?_set, h]

theorem getD_set_ne (l : List α) (i j : Nat) (x : α) (h : i ≠ j) (d : α) :
    (l.set i x).getD j d = l.getD j d := by
  simp [List.getD_eq_getElem?_getD, List.getElem?_set, h]

/-- Writing the head of a one-position rotation: `t.getD k :: t.set k a` is
a permutation of `a :: t`. -/
theorem cons_set_perm (a : α) : ∀ (t : List α) (k : Nat), k < t.length →
    (t.getD k default :: t.set k a).Perm (a :: t) := by
  intro t
  induction t with
  | nil => intro k hk; cases hk
  | cons b t2 ih =>
    intro k hk
    cases k with
    | zero =>
      simp only [List.getD_cons_zero, List.set_cons_zero]
      exact List.Perm.swap a b t2
    | succ m =>
      simp only [List.getD_cons_succ, List.set_cons_succ]
      have hm : m < t2.length := by simpa using hk
      exact ((List.Perm.swap b (t2.getD m default) (t2.set m a)).trans
        ((ih m hm).cons b)).trans (List.Perm.swap a b t2)

/-- A Python two-index swap is a permutation. -/
theorem set_set_swap_perm : ∀ (l : List α) (i j : Nat), i < l.length → j < l.length →
    ((l.set i (l.getD j default)).set j (l.getD i default)).Perm l := by
  intro l
  induction l with
  | nil => intro i j hi _; cases hi
  | cons a t ih =>
    intro i j hi hj
    cases i with
    | zero =>
      cases j with
      | zero => simp
      | succ k =>
        simp only [List.getD_cons_zero, List.getD_cons_succ, List.set_cons_zero,
          List.set_cons_succ]
        exact cons_set_perm a t k (by simpa using hj)
    | succ m =>
      cases j with
      | zero =>
        simp only [List.getD_cons_zero, List.getD_cons_succ, List.set_cons_zero,
          List.set_cons_succ]
        exact cons_set_perm a t m (by simpa using hi)
      | succ k =>
        simp only [List.getD_cons_succ, List.set_cons_succ]
        exact (ih m k (by simpa using hi) (by simpa using hj)).cons a

theorem pySwap_eq (l : List α) (i j : Nat) (hi : i < l.length) (hj : j < l.length) :
    pySwap l i j = some ((l.set i (l.getD j default)).set j (l.getD i default)) := by
  simp [pySwap, hi, hj]

/-- `find_min`'s scan loop returns a position of the minimum of
`{res} ∪ [i, i+n)` (never raising while all positions are in range). -/
theorem findMinLoop_spec (l : List α) : ∀ (n res i : Nat), res < l.length → i + n ≤ l.length →
    ∃ m, findMinLoop l n res i = some m ∧ m < l.length ∧
      (m = res ∨ (i ≤ m ∧ m < i + n)) ∧
      l.getD m default ≤ l.getD res default ∧
      (∀ k, i ≤ k → k < i + n → l.getD m default ≤ l.getD k default) := by
  intro n
  induction n with
  | zero =>
    intro res i hres _
    exact ⟨res, rfl, hres, Or.inl rfl, le_refl _, fun k hk1 hk2 => by omega⟩
  | succ n ih =>
    intro res i hres hin
    have hi : i < l.length := by omega
    have hp : pyLess l i res = some (decide (l.getD i default < l.getD res default)) := by
      simp [pyLess, hi, hres]
    unfold findMinLoop
    rw [hp]
    by_cases hlt : l.getD i default < l.getD res default
    · rw [decide_eq_true hlt]
      obtain ⟨m, hm_eq, hm_len, hm_loc, hm_le, hm_min⟩ := ih i (i+1) hi (by omega)
      refine ⟨m, hm_eq, hm_len, ?_, le_trans hm_le (le_of_lt hlt), ?_⟩
      · right
        rcases hm_loc with rfl | ⟨h1, h2⟩
        · exact ⟨le_refl _, by omega⟩
        · exact ⟨by omega, by omega⟩
      · intro k hk1 hk2
        rcases eq_or_lt_of_le hk1 with rfl | hk
        · exact hm_le
        · exact hm_min k (by omega) (by omega)
    · rw [decide_eq_false hlt]
      obtain ⟨m, hm_eq, hm_len, hm_loc, hm_le, hm_min⟩ := ih res (i+1) hres (by omega)
      refine ⟨m, hm_eq, hm_len, ?_, hm_le, ?_⟩
      · rcases hm_loc with rfl | ⟨h1, h2⟩
        · exact Or.inl rfl
        · exact Or.inr ⟨by omega, by omega⟩
      · intro k hk1 hk2
        rcases eq_or_lt_of_le hk1 with rfl | hk
        · exact le_trans hm_le (not_lt.mp hlt)
        · exact hm_min k (by omega) (by omega)

/-- One `selection_sort_step` on an in-range `begin` swaps a position of
the minimum of `[b, e)` into position `b` and permutes the list. -/
theorem selection_sort_step_spec (l : List α) (e b : Nat) (hb : b < e) (he : e ≤ l.length) :
    ∃ m l2, b ≤ m ∧ m < e ∧
      selection_sort_step l e b = some l2 ∧
      l2 = (l.set b (l.getD m default)).set m (l.getD b default) ∧
      l2.Perm l ∧ l2.length = l.length ∧
      (∀ k, b ≤ k → k < e → l.getD m default ≤ l.getD k default) ∧
      l2.getD b default = l.getD m default ∧
      l2.getD m default = l.getD b default ∧
      (∀ k, k ≠ b → k ≠ m → l2.getD k default = l.getD k default) := by
  have hbl : b < l.length := by omega
  obtain ⟨m, hm_eq, hm_len, hm_loc, hm_le, hm_min⟩ :=
    findMinLoop_spec l (e - (b+1)) b (b+1) hbl (by omega)
  have hbm : b ≤ m := by rcases hm_loc with rfl | ⟨h1, _⟩ <;> omega
  have hme : m < e := by rcases hm_loc with rfl | ⟨_, h2⟩ <;> omega
  have hmin : ∀ k, b ≤ k → k < e → l.getD m default ≤ l.getD k default := by
    intro k hk1 hk2
    rcases eq_or_lt_of_le hk1 with rfl | hk
    · exact hm_le
    · exact hm_min k (by omega) (by omega)
  refine ⟨m, _, hbm, hme, ?_, rfl, set_set_swap_perm l b m hbl hm_len,
    by simp, hmin, ?_, ?_, ?_⟩
  · unfold selection_sort_step
    rw [hm_eq]
    dsimp only
    exact pySwap_eq l b m hbl hm_len
  · by_cases hbm2 : b = m
    · subst hbm2
      rw [getD_set_self _ _ _ (by simpa using hbl)]
    · rw [getD_set_ne _ _ _ _ (fun h => hbm2 h.symm), getD_set_self _ _ _ hbl]
  · rw [getD_set_self _ _ _ (by simpa using hm_len)]
  · intro k hkb hkm
    rw [getD_set_ne _ _ _ _ (fun h => hkm h.symm), getD_set_ne _ _ _ _ (fun h => hkb h.symm)]

/-- The exhaustive step loop sorts: inductive invariant over the processed
prefix `[0, b)`. -/
theorem selSortFrom_sorts (N : Nat) (l0 : List α) : ∀ (n b : Nat) (l : List α),
    l.length = N → b + n = N → l.Perm l0 →
    (∀ p q, p < q → q < b → l.getD p default ≤ l.getD q default) →
    (∀ p k, p < b → b ≤ k → k < N → l.getD p default ≤ l.getD k default) →
    ∃ l2, selSortFrom N b n l = some l2 ∧ l2.Perm l0 ∧ l2.length = N ∧
      (∀ p q, p < q → q < N → l2.getD p default ≤ l2.getD q default) := by
  intro n
  induction n with
  | zero =>
    intro b l hlen hbn hperm hsort _
    exact ⟨l, rfl, hperm, hlen, fun p q h1 h2 => hsort p q h1 (by omega)⟩
  | succ n ih =>
    intro b l hlen hbn hperm hsort hcross
    obtain ⟨m, l2, hbm, hme, hstep, _hl2eq, hl2perm, hl2len, hmin, hgb, hgm, hother⟩ :=
      selection_sort_step_spec l N b (by omega) (by omega)
    have hsort2 : ∀ p q, p < q → q < b + 1 → l2.getD p default ≤ l2.getD q default := by
      intro p q hpq hq
      have hpb : p < b := by omega
      have hpval : l2.getD p default = l.getD p default :=
        hother p (by omega) (by omega)
      by_cases hqb : q < b
      · rw [hpval, hother q (by omega) (by omega)]
        exact hsort p q hpq hqb
      · have hq_eq : q = b := by omega
        subst hq_eq
        rw [hpval, hgb]
        exact hcross p m hpb hbm (by omega)
    have hcross2 : ∀ p k, p < b + 1 → b + 1 ≤ k → k < N → l2.getD p default ≤ l2.getD k default := by
      intro p k hp hk1 hk2
      by_cases hpb : p < b
      · have hpval : l2.getD p default = l.getD p default :=
          hother p (by omega) (by omega)
        by_cases hkm : k = m
        · subst hkm
          rw [hpval, hgm]
          exact hcross p b hpb (le_refl b) (by omega)
        · rw [hpval, hother k (by omega) hkm]
          exact hcross p k hpb (by omega) hk2
      · have hp_eq : p = b := by omega
        rw [hp_eq, hgb]
        by_cases hkm : k = m
        · subst hkm
          rw [hgm]
          exact hmin b (le_refl b) (by omega)
        · rw [hother k (by omega) hkm]
          exact hmin k (by omega) hk2
    obtain ⟨l3, h3_eq, h3_perm, h3_len, h3_sort⟩ :=
      ih (b+1) l2 (by omega) (by omega) (hl2perm.trans hperm) hsort2 hcross2
    refine ⟨l3, ?_, h3_perm, h3_len, h3_sort⟩
    unfold selSortFrom
    rw [hstep]
    exact h3_eq

/-- Index-wise sortedness gives `List.Sorted`. -/
theorem sortedLe_sorted (l : List α)
    (h : ∀ p q, p < q → q < l.length → l.getD p default ≤ l.getD q default) :
    List.Sorted (· ≤ ·) l := by
  show List.Pairwise _ l
  rw [List.pairwise_iff_getElem]
  intro i j hi hj hij
  have h2 := h i j hij hj
  rwa [List.getD_eq_getElem l default hi, List.getD_eq_getElem l default hj] at h2

/-- Claim C8: for every finite sequence of totally-ordered comparable keys,
calling `selection_sort_step` once per `begin` from `0` to `len-1` (with
`end = len`, element comparison as `less` and element exchange as `swap`)
raises no error and leaves the sequence sorted ascending, equal to any
reference total-order sort of it (so duplicates are preserved in count,
via the permutation); each single step swaps a position of the minimum of
`[begin, end)` into position `begin`; and on an empty or single-element
sequence the whole run is a no-op that never raises. -/
theorem c8_selection_sort_correct (l : List α) :
    (∃ l2, selection_sort_all l = some l2 ∧ l2.Perm l ∧ List.Sorted (· ≤ ·) l2 ∧
      ∀ lr : List α, lr.Perm l → List.Sorted (· ≤ ·) lr → l2 = lr) ∧
    (∀ b, b < l.length →
      ∃ m l2, b ≤ m ∧ m < l.length ∧
        selection_sort_step l l.length b = some l2 ∧
        pySwap l b m = some l2 ∧ l2.Perm l ∧
        l2.getD b default = l.getD m default ∧
        (∀ k, b ≤ k → k < l.length → l.getD m default ≤ l.getD k default)) ∧
    (l.length ≤ 1 → selection_sort_all l = some l) := by
  obtain ⟨l2, h_eq, h_perm, h_len, h_sort⟩ :=
    selSortFrom_sorts l.length l l.length 0 l rfl (by omega) (List.Perm.refl l)
      (fun p q _ h2 => absurd h2 (by omega)) (fun p k hp _ _ => absurd hp (by omega))
  have h_eq2 : selection_sort_all l = some l2 := h_eq
  have hsorted : List.Sorted (· ≤ ·) l2 :=
    sortedLe_sorted l2 fun p q h1 h2 => h_sort p q h1 (by omega)
  have huniq : ∀ lr : List α, lr.Perm l → List.Sorted (· ≤ ·) lr → l2 = lr := by
    intro lr hlr hlr_sorted
    exact List.eq_of_perm_of_sorted (h_perm.trans hlr.symm) hsorted hlr_sorted
  refine ⟨⟨l2, h_eq2, h_perm, hsorted, huniq⟩, ?_, ?_⟩
  · intro b hb
    obtain ⟨m, l3, hbm, hme, hstep, hl3eq, hl3perm, _, hmin, hgb, _, _⟩ :=
      selection_sort_step_spec l l.length b hb (le_refl _)
    exact ⟨m, l3, hbm, hme, hstep,
      by rw [pySwap_eq l b m (by omega) (by omega), hl3eq], hl3perm, hgb, hmin⟩
  · intro hshort
    have hl_sorted : List.Sorted (· ≤ ·) l := by
      match l, hshort with
      | [], _ => exact List.sorted_nil
      | [a], _ => exact List.sorted_singleton a
    have h3 := huniq l (List.Perm.refl l) hl_sorted
    rw [h_eq2, h3]

/-- Witness for `c8_selection_sort_correct` at the concrete list
`[3, 1, 2]`. -/
theorem c8_witness :
    (∃ l2, selection_sort_all ([3, 1, 2] : List Int) = some l2 ∧
      l2.Perm [3, 1, 2] ∧ List.Sorted (· ≤ ·) l2 ∧
      ∀ lr : List Int, lr.Perm [3, 1, 2] → List.Sorted (· ≤ ·) lr → l2 = lr) ∧
    (∀ b, b < ([3, 1, 2] : List Int).length →
      ∃ m l2, b ≤ m ∧ m < ([3, 1, 2] : List Int).length ∧
        selection_sort_step ([3, 1, 2] : List Int) ([3, 1, 2] : List Int).length b = some l2 ∧
        pySwap ([3, 1, 2] : List Int) b m = some l2 ∧ l2.Perm [3, 1, 2] ∧
        l2.getD b default = ([3, 1, 2] : List Int).getD m default ∧
        (∀ k, b ≤ k → k < ([3, 1, 2] : List Int).length →
          ([3, 1, 2] : List Int).getD m default ≤ ([3, 1, 2] : List Int).getD k default)) ∧
    (([3, 1, 2] : List Int).length ≤ 1 →
      selection_sort_all ([3, 1, 2] : List Int) = some [3, 1, 2]) :=
  c8_selection_sort_correct [3, 1, 2]

end SelSortProof

/-! ## Claim C9 — the validator never mutates its subject

The only effect a validator pass has on a sheet in openpyxl is cell
creation on read access, which can only grow the bounds (`touch`).  The
lemmas below show that every access the validator makes is in bounds, so
the threaded sheet comes back unchanged, and that findings are only ever
appended. -/

theorem touch_eq (s : Sheet) (r c : Nat) (hr : r ≤ s.maxRow) (hc : c ≤ s.maxCol) :
    touch s r c = s := by
  cases s with
  | mk mr mc cells =>
    simp only [touch]
    congr 1
    · exact Nat.max_eq_left hr
    · exact Nat.max_eq_left hc

theorem readCellsRow_frame (r : Nat) : ∀ (n c : Nat) (s : Sheet),
    r ≤ s.maxRow → c + n ≤ s.maxCol + 1 → (readCellsRow r c n s).2 = s := by
  intro n
  induction n with
  | zero => intro c s _ _; rfl
  | succ n ih =>
    intro c s hr hc
    unfold readCellsRow
    dsimp only
    rw [touch_eq s r c hr (by omega)]
    exact ih (c+1) s hr (by omega)

theorem readCellsCol_frame (c : Nat) : ∀ (n r : Nat) (s : Sheet),
    c ≤ s.maxCol → r + n ≤ s.maxRow + 1 → (readCellsCol c r n s).2 = s := by
  intro n
  induction n with
  | zero => intro r s _ _; rfl
  | succ n ih =>
    intro r s hc hr
    unfold readCellsCol
    dsimp only
    rw [touch_eq s r c (by omega) hc]
    exact ih (r+1) s hc (by omega)

theorem readCellsCol_len (c : Nat) : ∀ (n r : Nat) (s : Sheet),
    (readCellsCol c r n s).1.length = n := by
  intro n
  induction n with
  | zero => intro r s; rfl
  | succ n ih => intro r s; simp only [readCellsCol, List.length_cons, ih]

theorem get_class_names_t_frame (s : Sheet) (hr : 1 ≤ s.maxRow) :
    (get_class_names_t s).2 = s :=
  readCellsRow_frame 1 s.maxCol 1 s hr (by omega)

theorem get_record_names_t_frame (s : Sheet) (hc : 1 ≤ s.maxCol) :
    (get_record_names_t s).2 = s :=
  readCellsCol_frame 1 s.maxRow 1 s hc (by omega)

theorem get_record_names_t_len (s : Sheet) : (get_record_names_t s).1.length = s.maxRow :=
  readCellsCol_len 1 s.maxRow 1 s

theorem dupInner_app (names : List (Option Value)) (v : Value) (mk : Nat → Finding) (i0 : Nat) :
    ∀ (n j : Nat) (st : List Value × List Finding),
      ∃ d, (dupInner names v mk i0 j n st).2 = st.2 ++ d := by
  intro n
  induction n with
  | zero => intro j st; exact ⟨[], (List.append_nil _).symm⟩
  | succ n ih =>
    intro j st
    unfold dupInner
    dsimp only
    by_cases hm : names.getD j none = some v
    · rw [if_pos hm]
      by_cases hf : v ∈ st.1
      · rw [if_pos hf]
        obtain ⟨d, hd⟩ := ih (j+1) (st.1, st.2 ++ [mk j])
        exact ⟨[mk j] ++ d, by rw [hd]; dsimp only; rw [List.append_assoc]⟩
      · rw [if_neg hf]
        obtain ⟨d, hd⟩ := ih (j+1) (st.1 ++ [v], st.2 ++ [mk i0] ++ [mk j])
        exact ⟨[mk i0] ++ [mk j] ++ d, by rw [hd]; dsimp only; simp [List.append_assoc]⟩
    · rw [if_neg hm]
      exact ih (j+1) st

theorem dupOuter_app (names : List (Option Value)) (mk : Value → Nat → Finding)
    (skip : Value → Bool) : ∀ (n i : Nat) (st : List Value × List Finding),
      ∃ d, dupOuter names mk skip i n st = st.2 ++ d := by
  intro n
  induction n with
  | zero => intro i st; exact ⟨[], (List.append_nil _).symm⟩
  | succ n ih =>
    intro i st
    unfold dupOuter
    cases hm : names.getD i none with
    | none => exact ih (i+1) st
    | some v =>
      dsimp only
      by_cases hf : v ∈ st.1
      · rw [if_pos hf]; exact ih (i+1) st
      · rw [if_neg hf]
        by_cases hs : skip v = true
        · rw [if_pos hs]; exact ih (i+1) st
        · rw [if_neg hs]
          obtain ⟨d0, hd0⟩ := dupInner_app names v (mk v) i (names.length - (i+1)) (i+1) st
          obtain ⟨d1, hd1⟩ :=
            ih (i+1) (dupInner names v (mk v) i (i+1) (names.length - (i+1)) st)
          exact ⟨d0 ++ d1, by rw [hd1, hd0, List.append_assoc]⟩

theorem blankCols_frame (name title : String) (irow : Nat) :
    ∀ (n icol : Nat) (s0 : Sheet) (f0 : List Finding),
      irow ≤ s0.maxRow → icol + n ≤ s0.maxCol + 1 →
      (blankCols name title irow icol n (s0, f0)).1 = s0 ∧
      ∃ d, (blankCols name title irow icol n (s0, f0)).2 = f0 ++ d := by
  intro n
  induction n with
  | zero => intro icol s0 f0 _ _; exact ⟨rfl, [], (List.append_nil _).symm⟩
  | succ n ih =>
    intro icol s0 f0 hr hc
    unfold blankCols
    dsimp only
    rw [touch_eq s0 irow icol hr (by omega)]
    by_cases hv : s0.cells irow icol ≠ none
    · rw [if_pos hv]
      obtain ⟨h1, d, hd⟩ := ih (icol+1) s0
        (f0 ++ [⟨"Non-empty cell in a blank.", name, title, irow, icol⟩]) hr (by omega)
      exact ⟨h1, ⟨[⟨"Non-empty cell in a blank.", name, title, irow, icol⟩] ++ d,
        by rw [hd, List.append_assoc]⟩⟩
    · rw [if_neg hv]
      exact ih (icol+1) s0 f0 hr (by omega)

theorem blankRows_frame (name title : String) (recNames : List (Option Value)) :
    ∀ (n i : Nat) (s0 : Sheet) (f0 : List Finding),
      1 ≤ s0.maxCol → recNames.length ≤ s0.maxRow → i + n ≤ recNames.length →
      (blankRows name title recNames i n (s0, f0)).1 = s0 ∧
      ∃ d, (blankRows name title recNames i n (s0, f0)).2 = f0 ++ d := by
  intro n
  induction n with
  | zero => intro i s0 f0 _ _ _; exact ⟨rfl, [], (List.append_nil _).symm⟩
  | succ n ih =>
    intro i s0 f0 hc hr hi
    unfold blankRows
    dsimp only
    by_cases hb : is_blank (recNames.getD i none) = true
    · rw [if_pos hb]
      obtain ⟨h1, d0, hd0⟩ := blankCols_frame name title (i+1) (s0.maxCol - 2) 2 s0 f0
        (by omega) (by omega)
      have hpair : blankCols name title (i+1) 2 (s0.maxCol - 2) (s0, f0) = (s0, f0 ++ d0) :=
        Prod.ext_iff.mpr ⟨h1, hd0⟩
      rw [hpair]
      obtain ⟨h2, d1, hd1⟩ := ih (i+1) s0 (f0 ++ d0) hc hr (by omega)
      exact ⟨h2, ⟨d0 ++ d1, by rw [hd1, List.append_assoc]⟩⟩
    · rw [if_neg hb]
      exact ih (i+1) s0 f0 hc hr (by omega)

theorem validate_sheet_frame (name title : String) (ib : Bool) (s : Sheet)
    (fs : List Finding) (hr : 1 ≤ s.maxRow) (hc : 1 ≤ s.maxCol) :
    (validate_sheet name title ib s fs).1 = s ∧
    ∃ d, (validate_sheet name title ib s fs).2 = fs ++ d := by
  unfold validate_sheet
  dsimp only
  rw [touch_eq s 1 1 hr hc]
  cases hv : s.cells 1 1 with
  | some x => exact ⟨rfl, ⟨_, rfl⟩⟩
  | none =>
    dsimp only
    rw [get_class_names_t_frame s hr]
    obtain ⟨d1, hd1⟩ := dupOuter_app (get_class_names_t s).1
      (fun v k => ⟨"Duplicate class '" ++ vstr v ++ "' within one data sheet.", name, title, 1, k+1⟩)
      (fun _ => false) (get_class_names_t s).1.length 0 ([], fs)
    rw [hd1]
    rw [get_record_names_t_frame s hc]
    obtain ⟨d2, hd2⟩ := dupOuter_app (get_record_names_t s).1
      (fun v k => ⟨"Duplicate record '" ++ vstr v ++ "' within one data sheet.", name, title, k+1, 1⟩)
      (fun v => ib && is_blank (some v)) (get_record_names_t s).1.length 0 ([], fs ++ d1)
    rw [hd2]
    by_cases hib : ib = true
    · rw [if_pos hib]
      exact ⟨rfl, ⟨d1 ++ d2, by rw [List.append_assoc]⟩⟩
    · rw [if_neg hib]
      obtain ⟨h1, d3, hd3⟩ := blankRows_frame name title (get_record_names_t s).1
        (get_record_names_t s).1.length 0 s (fs ++ d1 ++ d2) hc
        (by rw [get_record_names_t_len]) (by omega)
      exact ⟨h1, ⟨d1 ++ d2 ++ d3, by rw [hd3]; simp [List.append_assoc]⟩⟩

theorem emptyColScan_frame (name title : String) (icol : Nat) :
    ∀ (n irow : Nat) (s0 : Sheet) (f0 : List Finding),
      icol ≤ s0.maxCol → irow + n ≤ s0.maxRow + 1 →
      (emptyColScan name title icol irow n (s0, f0)).1 = s0 ∧
      ∃ d, (emptyColScan name title icol irow n (s0, f0)).2 = f0 ++ d := by
  intro n
  induction n with
  | zero => intro irow s0 f0 _ _; exact ⟨rfl, [], (List.append_nil _).symm⟩
  | succ n ih =>
    intro irow s0 f0 hc hr
    unfold emptyColScan
    dsimp only
    rw [touch_eq s0 irow icol (by omega) hc]
    by_cases hv : s0.cells irow icol ≠ none
    · rw [if_pos hv]
      obtain ⟨h1, d, hd⟩ := ih (irow+1) s0
        (f0 ++ [⟨"Non-empty cell in a column with an empty class name.", name, title, irow, icol⟩])
        hc (by omega)
      exact ⟨h1, ⟨[⟨"Non-empty cell in a column with an empty class name.", name, title, irow, icol⟩] ++ d,
        by rw [hd, List.append_assoc]⟩⟩
    · rw [if_neg hv]
      exact ih (irow+1) s0 f0 hc (by omega)

theorem emptyColsOuter_frame (name title : String) :
    ∀ (n icol : Nat) (s0 : Sheet) (f0 : List Finding),
      1 ≤ s0.maxRow → icol + n ≤ s0.maxCol + 1 →
      (emptyColsOuter name title icol n (s0, f0)).1 = s0 ∧
      ∃ d, (emptyColsOuter name title icol n (s0, f0)).2 = f0 ++ d := by
  intro n
  induction n with
  | zero => intro icol s0 f0 _ _; exact ⟨rfl, [], (List.append_nil _).symm⟩
  | succ n ih =>
    intro icol s0 f0 hr hc
    unfold emptyColsOuter
    dsimp only
    rw [touch_eq s0 1 icol hr (by omega)]
    by_cases hv : s0.cells 1 icol ≠ none
    · rw [if_pos hv]
      exact ih (icol+1) s0 f0 hr (by omega)
    · rw [if_neg hv]
      obtain ⟨h1, d0, hd0⟩ := emptyColScan_frame name title icol (s0.maxRow - 1) 2 s0 f0
        (by omega) (by omega)
      have hpair : emptyColScan name title icol 2 (s0.maxRow - 1) (s0, f0) = (s0, f0 ++ d0) :=
        Prod.ext_iff.mpr ⟨h1, hd0⟩
      rw [hpair]
      obtain ⟨h2, d1, hd1⟩ := ih (icol+1) s0 (f0 ++ d0) hr (by omega)
      exact ⟨h2, ⟨d0 ++ d1, by rw [hd1, List.append_assoc]⟩⟩

theorem emptyRowScan_frame (name title : String) (irow : Nat) :
    ∀ (n icol : Nat) (s0 : Sheet) (f0 : List Finding),
      irow ≤ s0.maxRow → icol + n ≤ s0.maxCol + 1 →
      (emptyRowScan name title irow icol n (s0, f0)).1 = s0 ∧
      ∃ d, (emptyRowScan name title irow icol n (s0, f0)).2 = f0 ++ d := by
  intro n
  induction n with
  | zero => intro icol s0 f0 _ _; exact ⟨rfl, [], (List.append_nil _).symm⟩
  | succ n ih =>
    intro icol s0 f0 hr hc
    unfold emptyRowScan
    dsimp only
    rw [touch_eq s0 irow icol hr (by omega)]
    by_cases hv : s0.cells irow icol ≠ none
    · rw [if_pos hv]
      obtain ⟨h1, d, hd⟩ := ih (icol+1) s0
        (f0 ++ [⟨"Non-empty cell in a row with an empty record.", name, title, irow, icol⟩])
        hr (by omega)
      exact ⟨h1, ⟨[⟨"Non-empty cell in a row with an empty record.", name, title, irow, icol⟩] ++ d,
        by rw [hd, List.append_assoc]⟩⟩
    · rw [if_neg hv]
      exact ih (icol+1) s0 f0 hr (by omega)

theorem emptyRowsOuter_frame (name title : String) :
    ∀ (n irow : Nat) (s0 : Sheet) (f0 : List Finding),
      1 ≤ s0.maxCol → irow + n ≤ s0.maxRow + 1 →
      (emptyRowsOuter name title irow n (s0, f0)).1 = s0 ∧
      ∃ d, (emptyRowsOuter name title irow n (s0, f0)).2 = f0 ++ d := by
  intro n
  induction n with
  | zero => intro irow s0 f0 _ _; exact ⟨rfl, [], (List.append_nil _).symm⟩
  | succ n ih =>
    intro irow s0 f0 hc hr
    unfold emptyRowsOuter
    dsimp only
    rw [touch_eq s0 irow 1 (by omega) hc]
    by_cases hv : s0.cells irow 1 ≠ none
    · rw [if_pos hv]
      exact ih (irow+1) s0 f0 hc (by omega)
    · rw [if_neg hv]
      obtain ⟨h1, d0, hd0⟩ := emptyRowScan_frame name title irow (s0.maxCol - 1) 2 s0 f0
        (by omega) (by omega)
      have hpair : emptyRowScan name title irow 2 (s0.maxCol - 1) (s0, f0) = (s0, f0 ++ d0) :=
        Prod.ext_iff.mpr ⟨h1, hd0⟩
      rw [hpair]
      obtain ⟨h2, d1, hd1⟩ := ih (irow+1) s0 (f0 ++ d0) hc (by omega)
      exact ⟨h2, ⟨d0 ++ d1, by rw [hd1, List.append_assoc]⟩⟩

theorem validate_empty_cells_frame (name title : String) (s : Sheet) (fs : List Finding)
    (hr : 1 ≤ s.maxRow) (hc : 1 ≤ s.maxCol) :
    (validate_empty_cells name title s fs).1 = s ∧
    ∃ d, (validate_empty_cells name title s fs).2 = fs ++ d := by
  unfold validate_empty_cells
  dsimp only
  obtain ⟨h1, d0, hd0⟩ := emptyColsOuter_frame name title (s.maxCol - 1) 2 s fs hr (by omega)
  have hpair : emptyColsOuter name title 2 (s.maxCol - 1) (s, fs) = (s, fs ++ d0) :=
    Prod.ext_iff.mpr ⟨h1, hd0⟩
  rw [hpair]
  obtain ⟨h2, d1, hd1⟩ := emptyRowsOuter_frame name title (s.maxRow - 1) 2 s (fs ++ d0) hc
    (by omega)
  exact ⟨h2, ⟨d0 ++ d1, by rw [hd1, List.append_assoc]⟩⟩

theorem crossInner_app (name title : String) (rcd : Value) (i : Nat)
    (clsNames : List (Option Value)) :
    ∀ (n j : Nat) (st : Ctx × List Finding),
      ∃ d, (crossInner name title rcd i clsNames j n st).2 = st.2 ++ d := by
  intro n
  induction n with
  | zero => intro j st; exact ⟨[], (List.append_nil _).symm⟩
  | succ n ih =>
    intro j st
    unfold crossInner
    cases hm : clsNames.getD j none with
    | none => exact ih (j+1) st
    | some cls =>
      dsimp only
      cases hg : ctxGet st.1 (title, rcd, cls) with
      | none => exact ih (j+1) (st.1 ++ [((title, rcd, cls), (name, i+1, j+1))], st.2)
      | some org =>
        dsimp only
        by_cases ho : org.1 = name
        · rw [if_pos ho]
          exact ih (j+1) st
        · rw [if_neg ho]
          obtain ⟨d, hd⟩ := ih (j+1) (st.1, st.2 ++
            [⟨dupXMsg cls rcd, org.1, title, org.2.1, org.2.2⟩,
             ⟨dupXMsg cls rcd, name, title, i+1, j+1⟩])
          exact ⟨[⟨dupXMsg cls rcd, org.1, title, org.2.1, org.2.2⟩,
             ⟨dupXMsg cls rcd, name, title, i+1, j+1⟩] ++ d,
            by rw [hd]; dsimp only; rw [List.append_assoc]⟩

theorem crossOuter_frame (name title : String) (ib : Bool) (recNames : List (Option Value)) :
    ∀ (n i : Nat) (s0 : Sheet) (c0 : Ctx) (f0 : List Finding),
      1 ≤ s0.maxRow →
      (crossOuter name title ib recNames i n (s0, c0, f0)).1 = s0 ∧
      ∃ d, (crossOuter name title ib recNames i n (s0, c0, f0)).2.2 = f0 ++ d := by
  intro n
  induction n with
  | zero => intro i s0 c0 f0 _; exact ⟨rfl, [], (List.append_nil _).symm⟩
  | succ n ih =>
    intro i s0 c0 f0 hr
    unfold crossOuter
    cases hm : recNames.getD i none with
    | none => exact ih (i+1) s0 c0 f0 hr
    | some rcd =>
      dsimp only
      by_cases hb : (ib && is_blank (some rcd)) = true
      · rw [if_pos hb]
        exact ih (i+1) s0 c0 f0 hr
      · rw [if_neg hb]
        rw [get_class_names_t_frame s0 hr]
        obtain ⟨d0, hd0⟩ := crossInner_app name title rcd i (get_class_names_t s0).1
          (get_class_names_t s0).1.length 0 (c0, f0)
        obtain ⟨h1, d1, hd1⟩ := ih (i+1) s0
          (crossInner name title rcd i (get_class_names_t s0).1 0
            (get_class_names_t s0).1.length (c0, f0)).1
          (crossInner name title rcd i (get_class_names_t s0).1 0
            (get_class_names_t s0).1.length (c0, f0)).2 hr
        refine ⟨h1, ⟨d0 ++ d1, ?_⟩⟩
        rw [hd1]
        dsimp only at hd0 ⊢
        rw [hd0, List.append_assoc]

theorem validate_duplicates_frame (name title : String) (ib : Bool) (s : Sheet)
    (ctx : Ctx) (fs : List Finding) (hr : 1 ≤ s.maxRow) (hc : 1 ≤ s.maxCol) :
    (validate_duplicates_across_workbooks name title ib s ctx fs).1 = s ∧
    ∃ d, (validate_duplicates_across_workbooks name title ib s ctx fs).2.2 = fs ++ d := by
  unfold validate_duplicates_across_workbooks
  dsimp only
  rw [get_record_names_t_frame s hc]
  exact crossOuter_frame name title ib (get_record_names_t s).1
    (get_record_names_t s).1.length 0 s ctx fs hr

/-- Claim C9: `validate_input` never mutates the workbook it validates —
for every workbook (all sheet bounds are at least 1 in openpyxl), every
flag setting, every findings accumulator and every cross-call context, the
sheets come back identical (cell values and bounds), and the returned
findings list is the given accumulator with zero or more findings
appended, the context being the only other thing it modifies. -/
theorem c9_validate_input_pure (wb : List (String × Sheet)) (name : String) (ib : Bool)
    (fs : List Finding) (ctx : Ctx)
    (hwb : ∀ p ∈ wb, 1 ≤ p.2.maxRow ∧ 1 ≤ p.2.maxCol) :
    (validate_input wb name ib fs ctx).1 = wb ∧
    ∃ d, (validate_input wb name ib fs ctx).2.1 = fs ++ d := by
  revert hwb
  induction wb generalizing fs ctx with
  | nil => intro _; exact ⟨rfl, [], (List.append_nil _).symm⟩
  | cons p rest ih =>
    intro hwb
    obtain ⟨title, s⟩ := p
    obtain ⟨hr, hc⟩ := hwb (title, s) (List.mem_cons_self _ _)
    unfold validate_input
    dsimp only
    obtain ⟨h1, d1, hd1⟩ := validate_sheet_frame name title ib s fs hr hc
    have hp1 : validate_sheet name title ib s fs = (s, fs ++ d1) :=
      Prod.ext_iff.mpr ⟨h1, hd1⟩
    rw [hp1]
    obtain ⟨h2, d2, hd2⟩ := validate_empty_cells_frame name title s (fs ++ d1) hr hc
    have hp2 : validate_empty_cells name title s (fs ++ d1) = (s, fs ++ d1 ++ d2) :=
      Prod.ext_iff.mpr ⟨h2, hd2⟩
    rw [hp2]
    obtain ⟨h3, d3, hd3⟩ := validate_duplicates_frame name title ib s ctx (fs ++ d1 ++ d2) hr hc
    rw [h3, hd3]
    obtain ⟨h4, d4, hd4⟩ := ih (fs ++ d1 ++ d2 ++ d3)
      (validate_duplicates_across_workbooks name title ib s ctx (fs ++ d1 ++ d2)).2.1
      (fun q hq => hwb q (List.mem_cons_of_mem _ hq))
    rw [h4, hd4]
    exact ⟨rfl, ⟨d1 ++ d2 ++ d3 ++ d4, by simp [List.append_assoc]⟩⟩

/-- Witness for `c9_validate_input_pure` at a concrete workbook: the
`sheetC4` workbook (bounds 2×2) comes back unchanged with its findings
appended to the given accumulator. -/
theorem c9_witness :
    (∀ p ∈ [("S", sheetC4)], 1 ≤ p.2.maxRow ∧ 1 ≤ p.2.maxCol) ∧
    ((validate_input [("S", sheetC4)] "wb" false [] []).1 = [("S", sheetC4)] ∧
      ∃ d, (validate_input [("S", sheetC4)] "wb" false [] []).2.1 = [] ++ d) :=
  ⟨by decide, c9_validate_input_pure [("S", sheetC4)] "wb" false [] [] (by decide)⟩

/-! ## Claim C2 — `quick_sort` -/

/-- Claim C2 (code_bug demonstration): the claim states that `quick_sort`
with `begin = 0`, `end = length` sorts every finite sequence of comparable
keys.  On `[2, 9, 9, 1, 2]` the code returns `[1, 2, 9, 2, 9]`: the first
"greater than pivot" swap of `partition3` overwrites position `end - 1`,
which the loop keeps using as the pivot, so the "equal" region `[lt, gt]`
ends up holding the unequal values `9, 2` and is never recursed into.  The
result is a permutation of the input but is not sorted. -/
theorem c2_quick_sort_not_sorted :
    quick_sort 32 ([2, 9, 9, 1, 2] : List Int) 5 0 = [1, 2, 9, 2, 9] ∧
    ¬ List.Sorted (· ≤ ·) (quick_sort 32 ([2, 9, 9, 1, 2] : List Int) 5 0) ∧
    (quick_sort 32 ([2, 9, 9, 1, 2] : List Int) 5 0).Perm [2, 9, 9, 1, 2] ∧
    List.Sorted (· ≤ ·) ([1, 2, 2, 9, 9] : List Int) := by
  exact ⟨by decide, by decide, by decide, by decide⟩

/-! ## Claim C3 — non-empty corner cell does not skip the other checks -/

/-- Claim C3 (code_bug demonstration): the claim states that a sheet with a
non-empty corner cell yields *exactly one* finding, that no further checks
run on that sheet, and that the cross-workbook context is not updated for
it.  On `sheetC3` (corner `"X"`, value at (2,2) under empty labels) the
embedded `validate_input` emits *three* findings — the corner finding plus
two `validate_empty_cells` findings — and registers the corner value as a
record/class pair `("S", "X", "X")` in the context: the `return` inside
`validate_sheet` only skips the rest of `validate_sheet`, not the two other
validators the sheet loop always runs. -/
theorem c3_corner_checks_not_skipped :
    (validate_input [("S", sheetC3)] "wb" false [] []).2.1 =
      [⟨"Non-empty cell A1 (skipping the rest of the sheet)", "wb", "S", 1, 1⟩,
       ⟨"Non-empty cell in a column with an empty class name.", "wb", "S", 2, 2⟩,
       ⟨"Non-empty cell in a row with an empty record.", "wb", "S", 2, 2⟩] ∧
    (validate_input [("S", sheetC3)] "wb" false [] []).2.2 =
      [(("S", .str "X", .str "X"), ("wb", 1, 1))] := by
  exact ⟨by decide, by decide⟩

/-! ## Claim C4 — blank-row check misses the last column -/

/-- Claim C4 (code_bug demonstration): the claim states that with
`ignore_blanks` false, a blank-classified row yields one finding per
non-empty data cell for every column `2..max_column` *inclusive*.
`sheetC4` has the blank record `"blank1"` with the value `5` in its last
column (`max_column = 2`), yet validation reports *nothing*: the source
loop is `for icol in range(2, sheet.max_column)`, which stops one short of
the last column (every other scan in the validator uses `max_column + 1`).
-/
theorem c4_blank_last_column_missed :
    is_blank (sheetC4.cells 2 1) = true ∧
    sheetC4.cells 2 sheetC4.maxCol = some (.num 5) ∧
    (validate_input [("S", sheetC4)] "wb" false [] []).2.1 = [] := by
  exact ⟨by decide, by decide, by decide⟩

/-! ## Claim C1 — the round trip crashes on string data -/

/-- Claim C1 (code_bug demonstration): the claim states that for every
input set accepted by `validate_input` with no findings, merging and then
running `clear_found_values` per input raises no error and leaves
`has_empty_data_set` true.  `sheetC1` is accepted with no findings (first
conjunct), but the merge-then-clear round trip raises the `TypeError`
escaping from `math.isclose` (third conjunct): the sheet's data value is
the string `"v"`, which `merge` copies verbatim into the destination and
which `clear_found_values` then feeds to the numeric `isclose` comparison.
The second conjunct confirms the merged value is exactly the source value,
so the claim's expected outcome was a successful clear. -/
theorem c1_round_trip_raises_type_error :
    (validate_input [("S", sheetC1)] "wb" false [] []).2.1 = [] ∧
    (merge degenerate sheetC1 false).cells 2 2 = some (.str "v") ∧
    resTypeErr (clear_found_values (merge degenerate sheetC1 false) sheetC1 false false) = true := by
  exact ⟨by decide, by decide, by decide⟩

/-! ## Claim C5 — non-numeric values in `clear_found_values` -/

/-- Claim C5 (counterexample): the claim states that when the source and
destination hold the *equal* non-numeric value at a resolving position,
`clear_found_values` raises no error and nulls the destination cell (and
that a differing non-numeric value raises a "value differs" consistency
error).  With the equal string `"x"` on both sides the call instead raises
the `TypeError` escaping from `math.isclose`, which is neither of those
outcomes. -/
theorem c5_equal_strings_type_error :
    srcC5s.cells 2 2 = dstC5s.cells 2 2 ∧
    srcC5s.cells 2 2 = some (.str "x") ∧
    resTypeErr (clear_found_values dstC5s srcC5s false false) = true := by
  exact ⟨by decide, by decide, by decide⟩

/-- Claim C5 (amended): for a source cell holding a value `v` whose mapped
destination cell is resolved through the record/class maps: an empty
destination cell raises the "not found" consistency error; if either value
is non-numeric the per-cell check raises the `TypeError` from the numeric
comparison regardless of whether the values are equal; and for numeric
values the "value differs" consistency error is raised iff the values are
not within absolute and relative tolerance `1e-12`, otherwise the
destination cell is nulled with no error. -/
theorem c5_amended_clear_cell (dst src : Sheet) (rmap cmap : List Nat) (r c : Nat)
    (v : Value) (hv : src.cells r c = some v) :
    (dst.cells (rmap.getD (r-1) 0) (cmap.getD (c-1) 0) = none →
      clearCell src rmap cmap r c dst = .error (.cellNotFound r c, dst)) ∧
    (∀ w, dst.cells (rmap.getD (r-1) 0) (cmap.getD (c-1) 0) = some w →
      ((∀ q, v ≠ .num q) ∨ (∀ q, w ≠ .num q)) →
      clearCell src rmap cmap r c dst = .error (.typeErr v w, dst)) ∧
    (∀ a b, v = .num a →
      dst.cells (rmap.getD (r-1) 0) (cmap.getD (c-1) 0) = some (.num b) →
      (isclose a b = false →
        clearCell src rmap cmap r c dst = .error (.valueDiffers r c, dst)) ∧
      (isclose a b = true →
        clearCell src rmap cmap r c dst =
          .ok (dst.cellClear (rmap.getD (r-1) 0) (cmap.getD (c-1) 0)))) := by
  refine ⟨?_, ?_, ?_⟩
  · intro h
    simp only [clearCell, hv, h]
  · intro w hw hnn
    have hvc : valueClose v w = .error () := by
      cases v with
      | str s => rfl
      | num a =>
        cases w with
        | str t => rfl
        | num b =>
          rcases hnn with h1 | h2
          · exact absurd rfl (h1 a)
          · exact absurd rfl (h2 b)
    simp only [clearCell, hv, hw, hvc]
  · intro a b hva hwb
    subst hva
    constructor
    · intro hcl
      simp only [clearCell, hv, hwb, valueClose, hcl]
    · intro hcl
      simp only [clearCell, hv, hwb, valueClose, hcl]

/-- Witness for `c5_amended_clear_cell` at concrete inputs: the numeric
pair `(7, 2)` is outside tolerance and raises the "value differs"
consistency error. -/
theorem c5_amended_witness :
    srcC5n.cells 2 2 = some (.num 7) ∧
    clearCell srcC5n [1, 2] [1, 2] 2 2 dstC5n = .error (.valueDiffers 2 2, dstC5n) :=
  ⟨by decide,
    ((c5_amended_clear_cell dstC5n srcC5n [1, 2] [1, 2] 2 2 (.num 7) (by decide)).2.2
      7 2 rfl (by decide)).1 (by norm_num [isclose])⟩

/-! ## Claim C7 — `column_swap` boundary behaviour -/

/-- Claim C7: on a non-degenerate sheet, `column_swap` raises an
invalid-cell-index error whenever either index is below 1 or above
`max_column`; on a fully degenerate sheet (1×1 with an empty corner) any
call with both indices ≥ 1 returns the sheet unchanged without raising,
even when an index exceeds `max_column`. -/
theorem c7_column_swap_boundary (s : Sheet) (i j : Int) :
    (¬ (s.maxRow = 1 ∧ s.maxCol = 1 ∧ s.cells 1 1 = none) →
      (i < 1 ∨ j < 1 ∨ (s.maxCol : Int) < i ∨ (s.maxCol : Int) < j) →
      ∃ e, column_swap s i j = .error e) ∧
    ((s.maxRow = 1 ∧ s.maxCol = 1 ∧ s.cells 1 1 = none) → 1 ≤ i → 1 ≤ j →
      column_swap s i j = .ok s) := by
  constructor
  · intro hnd hout
    unfold column_swap
    rw [if_neg]
    · by_cases hlow : i < 1 ∨ j < 1
      · rw [if_pos hlow]
        exact ⟨_, rfl⟩
      · rw [if_neg hlow, if_pos]
        · exact ⟨_, rfl⟩
        · rcases hout with h | h | h | h
          · exact absurd (Or.inl h) hlow
          · exact absurd (Or.inr h) hlow
          · exact Or.inl h
          · exact Or.inr h
    · rintro ⟨hi, hj, hc, hr, h11⟩
      exact hnd ⟨hr, hc, h11⟩
  · rintro ⟨hr, hc, h11⟩ hi hj
    unfold column_swap
    rw [if_pos ⟨by omega, by omega, hc, hr, h11⟩]

/-- Witness for `c7_column_swap_boundary` at concrete inputs: the
degenerate sheet accepts the out-of-range pair `(5, 1)` as a no-op, while
the 2×2 sheet `dstC5n` rejects the pair `(0, 1)`. -/
theorem c7_witness :
    column_swap degenerate 5 1 = .ok degenerate ∧
    ∃ e, column_swap dstC5n 0 1 = .error e :=
  ⟨(c7_column_swap_boundary degenerate 5 1).2 ⟨rfl, rfl, rfl⟩ (by decide) (by decide),
    (c7_column_swap_boundary dstC5n 0 1).1 (by decide) (by decide)⟩

/-! ## Claim C6 — proof development

Cell-level helpers for the write primitives, list lemmas for the label
lists and `pyIndex`, then the two phases of `merge` (class mapping and row
copying) and the triple-set characterisation. -/

theorem cellW_maxRow (s : Sheet) (r c : Nat) (v : Option Value) :
    (s.cellW r c v).maxRow = max s.maxRow r := rfl

theorem cellW_maxCol (s : Sheet) (r c : Nat) (v : Option Value) :
    (s.cellW r c v).maxCol = max s.maxCol c := rfl

theorem cellW_cells (s : Sheet) (r c : Nat) (v : Option Value) (r2 c2 : Nat) :
    (s.cellW r c v).cells r2 c2 =
      if r2 = r ∧ c2 = c then
        (match v with | some x => some x | none => s.cells r2 c2)
      else s.cells r2 c2 := by
  cases v <;> rfl

theorem cellW_cells_ne (s : Sheet) (r c : Nat) (v : Option Value) (r2 c2 : Nat)
    (h : ¬ (r2 = r ∧ c2 = c)) : (s.cellW r c v).cells r2 c2 = s.cells r2 c2 := by
  rw [cellW_cells, if_neg h]

theorem cellW_cells_none (s : Sheet) (r c : Nat) (r2 c2 : Nat) :
    (s.cellW r c none).cells r2 c2 = s.cells r2 c2 := by
  rw [cellW_cells]
  split <;> rfl

theorem cellW_cells_some (s : Sheet) (r c : Nat) (x : Value) (r2 c2 : Nat) :
    (s.cellW r c (some x)).cells r2 c2 =
      if r2 = r ∧ c2 = c then some x else s.cells r2 c2 := rfl

theorem appendRow_maxRow (s : Sheet) (x : Value) : (s.appendRow x).maxRow = s.maxRow + 1 := rfl

theorem appendRow_maxCol (s : Sheet) (x : Value) : (s.appendRow x).maxCol = s.maxCol := rfl

theorem appendRow_cells (s : Sheet) (x : Value) (r2 c2 : Nat) :
    (s.appendRow x).cells r2 c2 =
      if r2 = s.maxRow + 1 ∧ c2 = 1 then some x else s.cells r2 c2 := rfl

theorem get_class_names_length (s : Sheet) : (get_class_names s).length = s.maxCol := by
  simp [get_class_names]

theorem get_class_names_getD (s : Sheet) (k : Nat) (hk : k < s.maxCol) :
    (get_class_names s).getD k none = s.cells 1 (k+1) := by
  rw [List.getD_eq_getElem _ _ (by simpa [get_class_names] using hk)]
  simp [get_class_names]

theorem get_record_names_length (s : Sheet) : (get_record_names s).length = s.maxRow := by
  simp [get_record_names]

theorem get_record_names_getD (s : Sheet) (k : Nat) (hk : k < s.maxRow) :
    (get_record_names s).getD k none = s.cells (k+1) 1 := by
  rw [List.getD_eq_getElem _ _ (by simpa [get_record_names] using hk)]
  simp [get_record_names]

theorem pyIndex_some : ∀ (l : List (Option Value)) (v : Option Value) (i : Nat),
    pyIndex l v = some i → i < l.length ∧ l.getD i none = v := by
  intro l
  induction l with
  | nil => intro v i h; cases h
  | cons x xs ih =>
    intro v i h
    unfold pyIndex at h
    by_cases hx : x = v
    · rw [if_pos hx] at h
      injection h with h2
      subst h2
      exact ⟨by simp, by simpa using hx⟩
    · rw [if_neg hx] at h
      cases hp : pyIndex xs v with
      | none => rw [hp] at h; cases h
      | some j =>
        rw [hp] at h
        simp only [Option.map_some'] at h
        injection h with h2
        subst h2
        obtain ⟨h1, h3⟩ := ih v j hp
        exact ⟨by simpa using h1, by simpa using h3⟩

theorem pyIndex_none : ∀ (l : List (Option Value)) (v : Option Value),
    pyIndex l v = none → ∀ i, i < l.length → l.getD i none ≠ v := by
  intro l
  induction l with
  | nil => intro v _ i hi; simp at hi
  | cons x xs ih =>
    intro v h i hi
    unfold pyIndex at h
    by_cases hx : x = v
    · rw [if_pos hx] at h; cases h
    · rw [if_neg hx] at h
      cases i with
      | zero => simpa using hx
      | succ j =>
        have hp : pyIndex xs v = none := by
          cases hp2 : pyIndex xs v with
          | none => rfl
          | some m => rw [hp2] at h; cases h
        exact fun hc => ih v hp j (by simpa using hi) (by simpa using hc)

theorem getD_drop_nat (l : List Nat) (n k : Nat) :
    (l.drop n).getD k 0 = l.getD (n + k) 0 := by
  simp [List.getD_eq_getElem?_getD, List.getElem?_drop]

theorem classExt_refl (d0 : Sheet) : ClassExt d0 d0 :=
  ⟨rfl, le_refl _, fun _ _ _ => rfl⟩

theorem classExt_comp {d0 d1 d2 : Sheet} (h1 : ClassExt d0 d1) (h2 : ClassExt d1 d2) :
    ClassExt d0 d2 := by
  refine ⟨h2.mr.trans h1.mr, h1.mc.trans h2.mc, ?_⟩
  intro r c hc
  have hmc := h1.mc
  have hmc2 := h2.mc
  rw [h2.low r c (by intro ⟨hr1, hlt, hle⟩; exact hc ⟨hr1, by omega, by omega⟩),
    h1.low r c (by intro ⟨hr1, hlt, hle⟩; exact hc ⟨hr1, by omega, by omega⟩)]

theorem classExt_col1 {d0 d : Sheet} (hd0 : WfDest d0) (he : ClassExt d0 d) (r : Nat) :
    d.cells r 1 = d0.cells r 1 := by
  have := hd0.colPos
  exact he.low r 1 (by intro ⟨_, hlt, _⟩; omega)

theorem classExt_data {d0 d : Sheet} (he : ClassExt d0 d) (r c : Nat) (hr : 2 ≤ r) :
    d.cells r c = d0.cells r c :=
  he.low r c (by intro ⟨hr1, _, _⟩; omega)

theorem classExt_row1_hi {d0 d : Sheet} (hd0 : WfDest d0) (he : ClassExt d0 d) (c : Nat)
    (hc : d.maxCol < c) : d.cells 1 c = none := by
  rw [he.low 1 c (by intro ⟨_, _, hle⟩; omega)]
  by_contra h
  have := (hd0.inB 1 c h).2.2.2
  have := he.mc
  omega

theorem mergeMapper_found (dst : Sheet) (dcls : List (Option Value)) (v : Option Value)
    (i : Nat) (h : pyIndex dcls v = some i) : mergeMapper dst dcls v = (dst, i + 1) := by
  unfold mergeMapper
  rw [h]

theorem mergeMapper_new (dst : Sheet) (dcls : List (Option Value)) (v : Option Value)
    (h : pyIndex dcls v = none) :
    mergeMapper dst dcls v =
      (dst.cellW 1 (dst.maxCol + 1) v, (dst.cellW 1 (dst.maxCol + 1) v).maxCol) := by
  unfold mergeMapper
  rw [h]

theorem mergeMapAll_cons (dst : Sheet) (dcls : List (Option Value)) (v : Option Value)
    (vs : List (Option Value)) :
    mergeMapAll dst dcls (v :: vs) =
      ((mergeMapAll (mergeMapper dst dcls v).1 dcls vs).1,
       (mergeMapper dst dcls v).2 :: (mergeMapAll (mergeMapper dst dcls v).1 dcls vs).2) := rfl

theorem classExt_inB {d0 d : Sheet} (hd0 : WfDest d0) (he : ClassExt d0 d) :
    ∀ r c, d.cells r c ≠ none → 1 ≤ r ∧ r ≤ d.maxRow ∧ 1 ≤ c ∧ c ≤ d.maxCol := by
  intro r c h
  by_cases hreg : r = 1 ∧ d0.maxCol < c ∧ c ≤ d.maxCol
  · obtain ⟨hr1, hlt, hle⟩ := hreg
    subst hr1
    have := he.mr
    have := hd0.rowPos
    exact ⟨le_refl 1, by omega, by omega, hle⟩
  · rw [he.low r c hreg] at h
    obtain ⟨h1, h2, h3, h4⟩ := hd0.inB r c h
    have := he.mr
    have := he.mc
    exact ⟨h1, by omega, h3, by omega⟩

theorem mem_getD_of_mem {vs : List (Option Value)} {v : Option Value} (h : v ∈ vs) :
    ∃ i, i < vs.length ∧ vs.getD i none = v := by
  obtain ⟨i, hi, hv⟩ := List.mem_iff_getElem.mp h
  exact ⟨i, hi, by rw [List.getD_eq_getElem _ _ hi, hv]⟩

/-- Phase 1 of `merge` (`mergeMapAll` against the stale class list of the
original destination `d0`): the destination only gains fresh class columns,
row-1 uniqueness is preserved, and every map entry points at a column of
the final phase-1 destination holding exactly the corresponding source
class label. -/
theorem mergeMapAll_spec (d0 : Sheet) (hd0 : WfDest d0) :
    ∀ (vs : List (Option Value)) (dcur : Sheet),
      ClassExt d0 dcur → Row1U dcur →
      (∀ v, v ∈ vs → v ≠ none → ∀ c, d0.maxCol < c → c ≤ dcur.maxCol → dcur.cells 1 c ≠ v) →
      (∀ k k2, k < vs.length → k2 < vs.length → vs.getD k none ≠ none →
        vs.getD k none = vs.getD k2 none → k = k2) →
      ClassExt dcur (mergeMapAll dcur (get_class_names d0) vs).1 ∧
      Row1U (mergeMapAll dcur (get_class_names d0) vs).1 ∧
      (mergeMapAll dcur (get_class_names d0) vs).2.length = vs.length ∧
      (∀ k, k < vs.length →
        1 ≤ (mergeMapAll dcur (get_class_names d0) vs).2.getD k 0 ∧
        (mergeMapAll dcur (get_class_names d0) vs).2.getD k 0 ≤
          (mergeMapAll dcur (get_class_names d0) vs).1.maxCol ∧
        (mergeMapAll dcur (get_class_names d0) vs).1.cells 1
          ((mergeMapAll dcur (get_class_names d0) vs).2.getD k 0) = vs.getD k none) := by
  intro vs
  induction vs with
  | nil =>
    intro dcur he hU _ _
    exact ⟨classExt_refl dcur, hU, rfl, fun k hk => absurd hk (by simp)⟩
  | cons v vs ih =>
    intro dcur he hU hfresh hnodup
    rw [mergeMapAll_cons]
    cases hpi : pyIndex (get_class_names d0) v with
    | some i =>
      rw [mergeMapper_found dcur (get_class_names d0) v i hpi]
      obtain ⟨hilen, hival⟩ := pyIndex_some (get_class_names d0) v i hpi
      rw [get_class_names_length] at hilen
      obtain ⟨ih_ext, ih_U, ih_len, ih_ent⟩ := ih dcur he hU
        (fun v2 hm hne c h1 h2 => hfresh v2 (List.mem_cons_of_mem v hm) hne c h1 h2)
        (fun k k2 hk hk2 hne heqv => by
          have := hnodup (k+1) (k2+1) (by simpa using hk) (by simpa using hk2)
            (by simpa using hne) (by simpa using heqv)
          omega)
      refine ⟨ih_ext, ih_U, by simp [ih_len], ?_⟩
      intro k hk
      cases k with
      | zero =>
        dsimp only [List.getD_cons_zero]
        have hi1 : i + 1 ≤ d0.maxCol := by omega
        have hcell : (mergeMapAll dcur (get_class_names d0) vs).1.cells 1 (i+1) =
            dcur.cells 1 (i+1) := by
          apply ih_ext.low
          intro ⟨_, hlt, _⟩
          have := he.mc
          omega
        refine ⟨by omega, by have := he.mc; have := ih_ext.mc; omega, ?_⟩
        rw [hcell, he.low 1 (i+1) (by intro ⟨_, hlt, _⟩; omega),
          ← get_class_names_getD d0 i hilen, hival]
      | succ k =>
        obtain ⟨h1, h2, h3⟩ := ih_ent k (by simpa using hk)
        exact ⟨by simpa using h1, by simpa using h2, by simpa using h3⟩
    | none =>
      rw [mergeMapper_new dcur (get_class_names d0) v hpi]
      have hrow : dcur.maxRow = d0.maxRow := he.mr
      have hmr2 : (dcur.cellW 1 (dcur.maxCol + 1) v).maxRow = dcur.maxRow := by
        rw [cellW_maxRow]
        have := hd0.rowPos
        omega
      have hmc2 : (dcur.cellW 1 (dcur.maxCol + 1) v).maxCol = dcur.maxCol + 1 := by
        rw [cellW_maxCol]
        omega
      have hext2 : ClassExt dcur (dcur.cellW 1 (dcur.maxCol + 1) v) := by
        refine ⟨hmr2, by omega, ?_⟩
        intro r c hcond
        apply cellW_cells_ne
        intro ⟨hr1, hc1⟩
        exact hcond ⟨hr1, by omega, by omega⟩
      have hextd2 : ClassExt d0 (dcur.cellW 1 (dcur.maxCol + 1) v) := classExt_comp he hext2
      have hval2 : (dcur.cellW 1 (dcur.maxCol + 1) v).cells 1 (dcur.maxCol + 1) = v := by
        cases v with
        | some x => rw [cellW_cells_some, if_pos ⟨rfl, rfl⟩]
        | none => rw [cellW_cells_none]; exact classExt_row1_hi hd0 he _ (by omega)
      have hold2 : ∀ c, c ≠ dcur.maxCol + 1 →
          (dcur.cellW 1 (dcur.maxCol + 1) v).cells 1 c = dcur.cells 1 c := by
        intro c hc
        exact cellW_cells_ne _ _ _ _ _ _ (by intro ⟨_, h2⟩; exact hc h2)
      have hnotold : ∀ c, 2 ≤ c → c ≤ dcur.maxCol → dcur.cells 1 c ≠ v ∨ v = none := by
        intro c hc2 hcle
        by_cases hv : v = none
        · exact Or.inr hv
        · refine Or.inl ?_
          by_cases hcd0 : c ≤ d0.maxCol
          · rw [he.low 1 c (by intro ⟨_, hlt, _⟩; omega)]
            have hc1 : c - 1 < d0.maxCol := by omega
            have := pyIndex_none (get_class_names d0) v hpi (c-1)
              (by rw [get_class_names_length]; omega)
            rw [get_class_names_getD d0 (c-1) hc1] at this
            have hcc : c - 1 + 1 = c := by omega
            rw [hcc] at this
            exact this
          · exact hfresh v (List.mem_cons_self v vs) hv c (by omega) hcle
      have hU2 : Row1U (dcur.cellW 1 (dcur.maxCol + 1) v) := by
        intro c c2 hc hc2 hne heqv
        by_cases hcm : c = dcur.maxCol + 1
        · by_cases hcm2 : c2 = dcur.maxCol + 1
          · rw [hcm, hcm2]
          · exfalso
            rw [hcm, hval2] at hne heqv
            rw [hold2 c2 hcm2] at heqv
            by_cases hc2hi : c2 ≤ dcur.maxCol
            · rcases hnotold c2 hc2 hc2hi with h | h
              · exact h heqv.symm
              · exact hne h
            · have : dcur.cells 1 c2 = none := by
                have := classExt_row1_hi hd0 he c2 (by omega)
                exact this
              rw [this] at heqv
              exact hne heqv
        · by_cases hcm2 : c2 = dcur.maxCol + 1
          · exfalso
            rw [hold2 c hcm] at hne heqv
            rw [hcm2, hval2] at heqv
            by_cases hchi : c ≤ dcur.maxCol
            · rcases hnotold c hc hchi with h | h
              · exact h heqv
              · rw [h] at heqv; exact hne heqv
            · have : dcur.cells 1 c = none := classExt_row1_hi hd0 he c (by omega)
              exact hne this
          · rw [hold2 c hcm] at hne heqv
            rw [hold2 c2 hcm2] at heqv
            exact hU c c2 hc hc2 hne heqv
      have hfresh2 : ∀ v2, v2 ∈ vs → v2 ≠ none → ∀ c, d0.maxCol < c →
          c ≤ (dcur.cellW 1 (dcur.maxCol + 1) v).maxCol →
          (dcur.cellW 1 (dcur.maxCol + 1) v).cells 1 c ≠ v2 := by
        intro v2 hm hne c hlo hhi
        rw [hmc2] at hhi
        by_cases hcm : c = dcur.maxCol + 1
        · rw [hcm, hval2]
          cases hv : v with
          | none => intro hcv; rw [hcv.symm] at hne; exact hne rfl
          | some x =>
            intro hcv
            obtain ⟨iv, hivlen, hivval⟩ := mem_getD_of_mem hm
            have := hnodup 0 (iv+1) (by simp) (by simpa using hivlen)
              (by rw [List.getD_cons_zero, hv]; exact fun hx => by cases hx)
              (by rw [List.getD_cons_zero, List.getD_cons_succ, hivval, hv, ← hcv])
            omega
        · rw [hold2 c hcm]
          exact hfresh v2 (List.mem_cons_of_mem v hm) hne c hlo (by omega)
      obtain ⟨ih_ext, ih_U, ih_len, ih_ent⟩ := ih (dcur.cellW 1 (dcur.maxCol + 1) v)
        hextd2 hU2 hfresh2
        (fun k k2 hk hk2 hne heqv => by
          have := hnodup (k+1) (k2+1) (by simpa using hk) (by simpa using hk2)
            (by simpa using hne) (by simpa using heqv)
          omega)
      refine ⟨classExt_comp hext2 ih_ext, ih_U, by simp [ih_len], ?_⟩
      intro k hk
      cases k with
      | zero =>
        dsimp only [List.getD_cons_zero]
        have hcell : (mergeMapAll (dcur.cellW 1 (dcur.maxCol + 1) v) (get_class_names d0) vs).1.cells 1
            ((dcur.cellW 1 (dcur.maxCol + 1) v).maxCol) =
            (dcur.cellW 1 (dcur.maxCol + 1) v).cells 1
              ((dcur.cellW 1 (dcur.maxCol + 1) v).maxCol) := by
          apply ih_ext.low
          intro ⟨_, hlt, _⟩
          omega
        refine ⟨by rw [hmc2]; omega, ih_ext.mc, ?_⟩
        rw [hcell, hmc2, hval2]
      | succ k =>
        obtain ⟨h1, h2, h3⟩ := ih_ent k (by simpa using hk)
        exact ⟨by simpa using h1, by simpa using h2, by simpa using h3⟩

/-- The copy loop of `mergeRow`: writes the source row `a`'s values into
row `irow` of the destination at the mapped columns; every other cell is
untouched (a write of an empty source cell assigns no value), and when the
map is injective on value-bearing entries each value lands at its mapped
column. -/
theorem copyCells_spec (s : Sheet) (a irow : Nat) :
    ∀ (ms : List Nat) (c0 : Nat) (d : Sheet),
      1 ≤ irow → irow ≤ d.maxRow →
      (∀ k, k < ms.length → 1 ≤ ms.getD k 0 ∧ ms.getD k 0 ≤ d.maxCol) →
      (∀ k k2, k < ms.length → k2 < ms.length → s.cells a (c0+k) ≠ none →
        ms.getD k 0 = ms.getD k2 0 → k = k2) →
      (copyCells s a irow ms c0 d).maxRow = d.maxRow ∧
      (copyCells s a irow ms c0 d).maxCol = d.maxCol ∧
      (∀ r c, (r ≠ irow ∨ ∀ k, k < ms.length → ms.getD k 0 = c → s.cells a (c0+k) = none) →
        (copyCells s a irow ms c0 d).cells r c = d.cells r c) ∧
      (∀ k, k < ms.length → s.cells a (c0+k) ≠ none →
        (copyCells s a irow ms c0 d).cells irow (ms.getD k 0) = s.cells a (c0+k)) := by
  intro ms
  induction ms with
  | nil =>
    intro c0 d _ _ _ _
    exact ⟨rfl, rfl, fun r c _ => rfl, fun k hk => absurd hk (by simp)⟩
  | cons m ms ih =>
    intro c0 d hirow1 hirow2 hcols hinj
    have hm := hcols 0 (by simp)
    rw [List.getD_cons_zero] at hm
    have hmr : (d.cellW irow m (s.cells a c0)).maxRow = d.maxRow := by
      rw [cellW_maxRow]; omega
    have hmc : (d.cellW irow m (s.cells a c0)).maxCol = d.maxCol := by
      rw [cellW_maxCol]; omega
    have hshift : ∀ k : Nat, c0 + 1 + k = c0 + (k + 1) := by omega
    obtain ⟨ih_mr, ih_mc, ih_un, ih_wr⟩ := ih (c0+1) (d.cellW irow m (s.cells a c0))
      hirow1 (by omega)
      (fun k hk => by
        have := hcols (k+1) (by simpa using hk)
        rw [List.getD_cons_succ] at this
        exact ⟨this.1, by omega⟩)
      (fun k k2 hk hk2 hne heqv => by
        have := hinj (k+1) (k2+1) (by simpa using hk) (by simpa using hk2)
          (by rw [hshift k] at hne; simpa using hne)
          (by simpa using heqv)
        omega)
    have hstep : copyCells s a irow (m :: ms) c0 d =
        copyCells s a irow ms (c0+1) (d.cellW irow m (s.cells a c0)) := rfl
    rw [hstep]
    refine ⟨by rw [ih_mr, hmr], by rw [ih_mc, hmc], ?_, ?_⟩
    · intro r c hcond
      rcases hcond with hr | hall
      · rw [ih_un r c (Or.inl hr), cellW_cells_ne _ _ _ _ _ _ (by intro ⟨h1, _⟩; exact hr h1)]
      · rw [ih_un r c (Or.inr (fun k hk hkc => by
          have := hall (k+1) (by simpa using hk) (by simpa using hkc)
          rw [hshift k]
          exact this))]
        by_cases hcm : c = m
        · have h0 := hall 0 (by simp) (by rw [List.getD_cons_zero, hcm])
          rw [Nat.add_zero] at h0
          rw [cellW_cells, h0]
          split <;> rfl
        · exact cellW_cells_ne _ _ _ _ _ _ (by intro ⟨_, h2⟩; exact hcm h2)
    · intro k hk hne
      cases k with
      | zero =>
        rw [Nat.add_zero] at hne ⊢
        rw [List.getD_cons_zero]
        obtain ⟨x, hx⟩ := Option.ne_none_iff_exists'.mp hne
        rw [ih_un irow m (Or.inr (fun k2 hk2 hk2m => by
          by_contra hcc
          have := hinj 0 (k2+1) (by simp) (by simpa using hk2)
            (by rw [Nat.add_zero]; exact hne)
            (by rw [List.getD_cons_zero, List.getD_cons_succ, hk2m])
          omega))]
        rw [hx, cellW_cells_some, if_pos ⟨rfl, rfl⟩, ← hx, Nat.add_zero]
      | succ k =>
        have := ih_wr k (by simpa using hk) (by rw [hshift k]; simpa using hne)
        rw [List.getD_cons_succ, ← hshift k]
        exact this

theorem mem_triples (s : Sheet) (t : Value × Value × Value) :
    t ∈ triples s ↔ ∃ r c, 2 ≤ r ∧ 2 ≤ c ∧
      s.cells r 1 = some t.1 ∧ s.cells 1 c = some t.2.1 ∧ s.cells r c = some t.2.2 :=
  Iff.rfl

theorem mem_srcTriples (ib : Bool) (s : Sheet) (t : Value × Value × Value) :
    t ∈ srcTriples ib s ↔
      t ∈ triples s ∧ ¬ (ib = true ∧ is_blank (some t.1) = true) :=
  Iff.rfl

/-- The destination after the class phase satisfies the row-loop invariant
at the start of the row loop (`a = 2`, no source row processed yet). -/
theorem rowsInv_init (d0 d1 s : Sheet) (ib : Bool) (hd0 : WfDest d0)
    (hext : ClassExt d0 d1) : RowsInv d0 d1 s ib 2 d1 := by
  have hcol1 : ∀ r, d1.cells r 1 = d0.cells r 1 := classExt_col1 hd0 hext
  have hdata : ∀ r c, 2 ≤ r → d1.cells r c = d0.cells r c :=
    fun r c hr => classExt_data hext r c hr
  have hrow1lo : ∀ c, c ≤ d0.maxCol → d1.cells 1 c = d0.cells 1 c := by
    intro c hc
    exact hext.low 1 c (by intro ⟨_, hlt, _⟩; omega)
  refine ⟨rfl, le_refl _, fun _ => rfl, classExt_inB hd0 hext,
    fun r _ => hcol1 r, fun r h1 h2 => absurd (lt_of_lt_of_le h1 h2) (lt_irrefl _),
    ?_, ?_, ?_, fun r c hr _ _ => hdata r c hr, ?_⟩
  · intro r r2 hr hr2 hne heq
    rw [hcol1 r] at hne heq
    rw [hcol1 r2] at heq
    exact hd0.recU r r2 hr hr2 hne heq
  · intro r c hr hc h1
    rw [hdata r c hr]
    by_cases hcle : c ≤ d0.maxCol
    · exact hd0.noneCls r c hr hc ((hrow1lo c hcle).symm.trans h1)
    · by_contra hne
      have := (hd0.inB r c hne).2.2.2
      omega
  · intro r c hr hc h1
    rw [hdata r c hr]
    exact hd0.noneRec r c hr hc ((hcol1 r).symm.trans h1)
  · intro t
    simp only [mem_triples]
    constructor
    · intro ⟨r, c, hr, hc, h1, h2, h3⟩
      have h3d : d0.cells r c = some t.2.2 := (hdata r c hr).symm.trans h3
      have hcle : c ≤ d0.maxCol :=
        (hd0.inB r c (by rw [h3d]; exact Option.some_ne_none _)).2.2.2
      exact Or.inl ⟨r, c, hr, hc, (hcol1 r).symm.trans h1,
        (hrow1lo c hcle).symm.trans h2, h3d⟩
    · intro h
      rcases h with ⟨r, c, hr, hc, h1, h2, h3⟩ | ⟨ρ, hρ1, hρ2, _⟩
      · have hcle : c ≤ d0.maxCol :=
          (hd0.inB r c (by rw [h3]; exact Option.some_ne_none _)).2.2.2
        exact ⟨r, c, hr, hc, (hcol1 r).trans h1, (hrow1lo c hcle).trans h2,
          (hdata r c hr).trans h3⟩
      · omega

/-- A skipped source row (empty record, or blank record under
`ignore_blanks`) contributes no triple and advances the invariant. -/
theorem rowsInv_skip (d0 d1 s : Sheet) (ib : Bool) (a : Nat) (dcur : Sheet)
    (hinv : RowsInv d0 d1 s ib a dcur)
    (hno : ∀ t, ¬ rowTriple s ib a t) : RowsInv d0 d1 s ib (a+1) dcur := by
  refine ⟨hinv.mc, hinv.mr, hinv.row1, hinv.inB, hinv.oldRec, ?_, hinv.recU,
    hinv.noneCls, hinv.noneRec, ?_, ?_⟩
  · intro r h1 h2
    obtain ⟨ρ, hρ1, hρ2, h3, h4, h5⟩ := hinv.newRecSrc r h1 h2
    exact ⟨ρ, hρ1, by omega, h3, h4, h5⟩
  · intro r c hr hrle hall
    exact hinv.oldRows r c hr hrle (fun ρ h1 h2 h3 h4 => hall ρ h1 (by omega) h3 h4)
  · intro t
    rw [hinv.tri t]
    constructor
    · intro h
      rcases h with h | ⟨ρ, h1, h2, h3⟩
      · exact Or.inl h
      · exact Or.inr ⟨ρ, h1, by omega, h3⟩
    · intro h
      rcases h with h | ⟨ρ, h1, h2, h3⟩
      · exact Or.inl h
      · rcases Nat.lt_or_ge ρ a with hlt | hge
        · exact Or.inr ⟨ρ, h1, hlt, h3⟩
        · have hρa : ρ = a := by omega
          rw [hρa] at h3
          exact absurd h3 (hno t)

/-- One iteration of the row loop of `merge` advances the invariant: the
processed source row's triples are added (fresh rows are appended for new
records; rows of the original destination are overwritten only with values
that agree, by cross-sheet validation). -/
theorem mergeRow_inv (d0 d1 s : Sheet) (ib : Bool) (mp : List Nat)
    (hd0 : WfDest d0) (hs : WfSrc ib s) (hext : ClassExt d0 d1)
    (hmap : MapSpec d1 s mp) (hcompat : TriCompat (triples d0) (srcTriples ib s))
    (a : Nat) (ha : 2 ≤ a) (dcur : Sheet) (hinv : RowsInv d0 d1 s ib a dcur) :
    RowsInv d0 d1 s ib (a+1) (mergeRow (get_record_names d0) mp s ib dcur a) := by
  unfold mergeRow
  cases hr1 : s.cells a 1 with
  | none =>
    dsimp only
    refine rowsInv_skip d0 d1 s ib a dcur hinv ?_
    intro t ht
    obtain ⟨h1, _, _⟩ := ht
    rw [hr1] at h1
    cases h1
  | some rcd =>
    dsimp only
    by_cases hbl : (ib && is_blank (some rcd)) = true
    · rw [if_pos hbl]
      refine rowsInv_skip d0 d1 s ib a dcur hinv ?_
      intro t ht
      obtain ⟨h1, h2, _⟩ := ht
      rw [hr1] at h1
      injection h1 with h1
      obtain ⟨hib, hibk⟩ := Bool.and_eq_true_iff.mp hbl
      exact h2 ⟨hib, by rw [← h1]; exact hibk⟩
    · rw [if_neg hbl]
      have hbf : ¬(ib = true ∧ is_blank (some rcd) = true) := by
        intro ⟨hh1, hh2⟩
        exact hbl (by rw [hh1, hh2]; rfl)
      -- facts about the class map shared by both branches
      have hlen : (mp.drop 1).length = s.maxCol - 1 := by
        rw [List.length_drop, hmap.1]
      have hmk : ∀ k, (mp.drop 1).getD k 0 = mp.getD (k+1) 0 := by
        intro k
        rw [getD_drop_nat, Nat.add_comm]
      have hmap2 : ∀ k, k < s.maxCol - 1 → 1 ≤ mp.getD (k+1) 0 ∧
          mp.getD (k+1) 0 ≤ d1.maxCol ∧
          d1.cells 1 (mp.getD (k+1) 0) = s.cells 1 (2+k) := by
        intro k hk
        obtain ⟨h1, h2, h3⟩ := hmap.2 (k+1) (by omega)
        refine ⟨h1, h2, ?_⟩
        rw [h3, get_class_names_getD s (k+1) (by omega)]
        rw [show k+1+1 = 2+k from by omega]
      have hd1corner : d1.cells 1 1 = none := by
        rw [classExt_col1 hd0 hext 1]
        exact hd0.corner
      -- map entries pointing at column 1 carry class `None`, hence no value
      have hones : ∀ k, k < (mp.drop 1).length → (mp.drop 1).getD k 0 = 1 →
          s.cells a (2+k) = none := by
        intro k hkL hk1
        rw [hlen] at hkL
        rw [hmk k] at hk1
        obtain ⟨_, _, h3⟩ := hmap2 k hkL
        rw [hk1, hd1corner] at h3
        exact hs.noneCls a (2+k) ha (by omega) h3.symm
      have hcols_cur : ∀ k, k < (mp.drop 1).length →
          1 ≤ (mp.drop 1).getD k 0 ∧ (mp.drop 1).getD k 0 ≤ dcur.maxCol := by
        intro k hkL
        rw [hlen] at hkL
        rw [hmk k]
        obtain ⟨h1, h2, _⟩ := hmap2 k hkL
        exact ⟨h1, by rw [hinv.mc]; exact h2⟩
      have hinj : ∀ k k2, k < (mp.drop 1).length → k2 < (mp.drop 1).length →
          s.cells a (2+k) ≠ none →
          (mp.drop 1).getD k 0 = (mp.drop 1).getD k2 0 → k = k2 := by
        intro k k2 hkL hk2L hne heqm
        rw [hlen] at hkL hk2L
        rw [hmk k, hmk k2] at heqm
        have hcls : s.cells 1 (2+k) ≠ none := by
          intro hnone
          exact hne (hs.noneCls a (2+k) ha (by omega) hnone)
        obtain ⟨_, _, h3⟩ := hmap2 k hkL
        obtain ⟨_, _, h3'⟩ := hmap2 k2 hk2L
        have heqc : s.cells 1 (2+k) = s.cells 1 (2+k2) := by
          rw [← h3, ← h3', heqm]
        have := hs.clsU (2+k) (2+k2) (by omega) (by omega) hcls heqc
        omega
      cases hpi : pyIndex (get_record_names d0) (some rcd) with
      | some i =>
        dsimp only
        obtain ⟨hilen, hival⟩ := pyIndex_some (get_record_names d0) (some rcd) i hpi
        rw [get_record_names_length] at hilen
        rw [get_record_names_getD d0 i hilen] at hival
        have hi2 : 2 ≤ i + 1 := by
          by_contra hcc
          have hi0 : i = 0 := by omega
          rw [hi0, hd0.corner] at hival
          cases hival
        have hirow_le1 : i + 1 ≤ d1.maxRow := by rw [hext.mr]; omega
        have hirow_le : i + 1 ≤ dcur.maxRow := le_trans hirow_le1 hinv.mr
        -- no processed source row carried this record, so the target
        -- destination row is still the original `d0` row
        have hrowold : ∀ c, dcur.cells (i+1) c = d0.cells (i+1) c := by
          intro c
          apply hinv.oldRows (i+1) c hi2 hirow_le1
          intro ρ hρ2 hρa hρne hρbf heq
          rw [hival] at heq
          have := hs.recU ρ a hρ2 ha hρne hρbf (heq.trans hr1.symm)
          omega
        obtain ⟨hEmr, hEmc, hEun, hEwr⟩ :=
          copyCells_spec s a (i+1) (mp.drop 1) 2 dcur (by omega) hirow_le
            hcols_cur hinj
        have hcol1new : ∀ r,
            (copyCells s a (i+1) (mp.drop 1) 2 dcur).cells r 1 = dcur.cells r 1 :=
          fun r => hEun r 1 (Or.inr hones)
        have hrow1new : ∀ c,
            (copyCells s a (i+1) (mp.drop 1) 2 dcur).cells 1 c = dcur.cells 1 c :=
          fun c => hEun 1 c (Or.inl (by omega))
        -- lifting the triples of `dcur` into the copied result: untouched
        -- cells keep their value, overwritten cells receive the same value
        -- by the cross-sheet compatibility of validated inputs
        have hlift : ∀ u, u ∈ triples dcur →
            u ∈ triples (copyCells s a (i+1) (mp.drop 1) 2 dcur) := by
          intro u hu
          rw [mem_triples] at hu
          obtain ⟨r, c, hr2, hc2, h1, h2, h3⟩ := hu
          have h2d1 : d1.cells 1 c = some u.2.1 := by
            rw [← hinv.row1 c]
            exact h2
          rw [mem_triples]
          refine ⟨r, c, hr2, hc2, by rw [hcol1new r]; exact h1,
            by rw [hrow1new c]; exact h2, ?_⟩
          by_cases hr : r = i+1
          · subst hr
            by_cases hhit : ∃ k, k < (mp.drop 1).length ∧
                (mp.drop 1).getD k 0 = c ∧ s.cells a (2+k) ≠ none
            · obtain ⟨k, hkL, hkc, hkv⟩ := hhit
              obtain ⟨w, hw⟩ := Option.ne_none_iff_exists'.mp hkv
              have hc_eq : mp.getD (k+1) 0 = c := (hmk k).symm.trans hkc
              have hkS : k < s.maxCol - 1 := by rw [← hlen]; exact hkL
              obtain ⟨_, _, hm3⟩ := hmap2 k hkS
              rw [hc_eq] at hm3
              have hscls : s.cells 1 (2+k) = some u.2.1 := by
                rw [← hm3]
                exact h2d1
              have ht1 : u.1 = rcd := by
                rw [hrowold 1, hival] at h1
                injection h1 with hh
                exact hh.symm
              have hd0t : (u.1, u.2.1, u.2.2) ∈ triples d0 := by
                have h3d : d0.cells (i+1) c = some u.2.2 := by
                  rw [← hrowold c]
                  exact h3
                have hcle : c ≤ d0.maxCol :=
                  (hd0.inB (i+1) c (by rw [h3d]; exact Option.some_ne_none _)).2.2.2
                have h2d0 : d0.cells 1 c = some u.2.1 := by
                  rw [← hext.low 1 c (by intro ⟨_, hlt, _⟩; omega)]
                  exact h2d1
                exact (mem_triples d0 _).mpr ⟨i+1, c, hi2, hc2,
                  show d0.cells (i+1) 1 = some u.1 by rw [ht1]; exact hival,
                  h2d0, h3d⟩
              have hsrct : (u.1, u.2.1, w) ∈ srcTriples ib s :=
                (mem_srcTriples ib s _).mpr ⟨(mem_triples s _).mpr
                  ⟨a, 2+k, ha, by omega,
                    show s.cells a 1 = some u.1 by rw [ht1]; exact hr1,
                    hscls, hw⟩,
                  show ¬(ib = true ∧ is_blank (some u.1) = true) by
                    rw [ht1]; exact hbf⟩
              have hval : u.2.2 = w := hcompat u.1 u.2.1 u.2.2 w hd0t hsrct
              have hwr := hEwr k hkL hkv
              rw [hkc, hw] at hwr
              rw [hwr, hval]
            · rw [hEun (i+1) c (Or.inr (fun k hkL hkc => by
                by_contra hcc
                exact hhit ⟨k, hkL, hkc, hcc⟩))]
              exact h3
          · rw [hEun r c (Or.inl hr)]
            exact h3
        refine ⟨?_, ?_, ?_, ?_, ?_, ?_, ?_, ?_, ?_, ?_, ?_⟩
        · rw [hEmc]
          exact hinv.mc
        · rw [hEmr]
          exact hinv.mr
        · intro c
          rw [hrow1new c]
          exact hinv.row1 c
        · intro r c hne
          rw [hEmr, hEmc]
          by_cases hr : r = i+1
          · subst hr
            by_cases hhit : ∃ k, k < (mp.drop 1).length ∧
                (mp.drop 1).getD k 0 = c ∧ s.cells a (2+k) ≠ none
            · obtain ⟨k, hkL, hkc, hkv⟩ := hhit
              obtain ⟨hb1, hb2⟩ := hcols_cur k hkL
              rw [hkc] at hb1 hb2
              exact ⟨by omega, by omega, hb1, hb2⟩
            · rw [hEun (i+1) c (Or.inr (fun k hkL hkc => by
                by_contra hcc
                exact hhit ⟨k, hkL, hkc, hcc⟩))] at hne
              exact hinv.inB (i+1) c hne
          · rw [hEun r c (Or.inl hr)] at hne
            exact hinv.inB r c hne
        · intro r hrle
          rw [hcol1new r]
          exact hinv.oldRec r hrle
        · intro r h1 h2
          rw [hEmr] at h2
          rw [hcol1new r]
          obtain ⟨ρ, p1, p2, p3, p4, p5⟩ := hinv.newRecSrc r h1 h2
          exact ⟨ρ, p1, by omega, p3, p4, p5⟩
        · intro r r2 hrr hrr2 hne heq
          rw [hcol1new r] at hne heq
          rw [hcol1new r2] at heq
          exact hinv.recU r r2 hrr hrr2 hne heq
        · intro r c hrr hc h1
          rw [hrow1new c] at h1
          by_cases hr' : r = i+1
          · subst hr'
            by_cases hhit : ∃ k, k < (mp.drop 1).length ∧
                (mp.drop 1).getD k 0 = c ∧ s.cells a (2+k) ≠ none
            · exfalso
              obtain ⟨k, hkL, hkc, hkv⟩ := hhit
              have hkS : k < s.maxCol - 1 := by rw [← hlen]; exact hkL
              obtain ⟨_, _, hm3⟩ := hmap2 k hkS
              have hc_eq : mp.getD (k+1) 0 = c := (hmk k).symm.trans hkc
              rw [hc_eq] at hm3
              have hlab : d1.cells 1 c = none := by
                rw [← hinv.row1 c]
                exact h1
              rw [hlab] at hm3
              exact hkv (hs.noneCls a (2+k) ha (by omega) hm3.symm)
            · rw [hEun (i+1) c (Or.inr (fun k hkL hkc => by
                by_contra hcc
                exact hhit ⟨k, hkL, hkc, hcc⟩))]
              exact hinv.noneCls (i+1) c hrr hc h1
          · rw [hEun r c (Or.inl hr')]
            exact hinv.noneCls r c hrr hc h1
        · intro r c hrr hc h1
          rw [hcol1new r] at h1
          by_cases hr' : r = i+1
          · exfalso
            rw [hr', hrowold 1, hival] at h1
            cases h1
          · rw [hEun r c (Or.inl hr')]
            exact hinv.noneRec r c hrr hc h1
        · intro r c hrr hrle hall
          have hne_rcd := hall a ha (by omega)
            (by rw [hr1]; exact Option.some_ne_none _)
            (by rw [hr1]; exact hbf)
          rw [hr1] at hne_rcd
          have hrne : r ≠ i+1 := by
            intro hre
            rw [hre, hival] at hne_rcd
            exact hne_rcd rfl
          rw [hEun r c (Or.inl hrne)]
          exact hinv.oldRows r c hrr hrle
            (fun ρ p1 p2 p3 p4 => hall ρ p1 (by omega) p3 p4)
        · intro t
          constructor
          · intro ht
            rw [mem_triples] at ht
            obtain ⟨r, c, hr2, hc2, h1, h2, h3⟩ := ht
            have h1c : dcur.cells r 1 = some t.1 := by
              rw [← hcol1new r]
              exact h1
            have h2c : dcur.cells 1 c = some t.2.1 := by
              rw [← hrow1new c]
              exact h2
            have h2d1 : d1.cells 1 c = some t.2.1 := by
              rw [← hinv.row1 c]
              exact h2c
            by_cases hr : r = i+1
            · subst hr
              by_cases hhit : ∃ k, k < (mp.drop 1).length ∧
                  (mp.drop 1).getD k 0 = c ∧ s.cells a (2+k) ≠ none
              · obtain ⟨k, hkL, hkc, hkv⟩ := hhit
                have ht1 : t.1 = rcd := by
                  rw [hrowold 1, hival] at h1c
                  injection h1c with hh
                  exact hh.symm
                have hkS : k < s.maxCol - 1 := by rw [← hlen]; exact hkL
                obtain ⟨_, _, hm3⟩ := hmap2 k hkS
                have hc_eq : mp.getD (k+1) 0 = c := (hmk k).symm.trans hkc
                rw [hc_eq] at hm3
                have hscls : s.cells 1 (2+k) = some t.2.1 := by
                  rw [← hm3]
                  exact h2d1
                have hwr := hEwr k hkL hkv
                rw [hkc] at hwr
                rw [h3] at hwr
                exact Or.inr ⟨a, ha, by omega,
                  show s.cells a 1 = some t.1 by rw [ht1]; exact hr1,
                  show ¬(ib = true ∧ is_blank (some t.1) = true) by
                    rw [ht1]; exact hbf,
                  2+k, by omega, hscls, hwr.symm⟩
              · rw [hEun (i+1) c (Or.inr (fun k hkL hkc => by
                  by_contra hcc
                  exact hhit ⟨k, hkL, hkc, hcc⟩))] at h3
                rcases (hinv.tri t).mp ((mem_triples dcur t).mpr
                    ⟨i+1, c, hr2, hc2, h1c, h2c, h3⟩) with hh | ⟨ρ, p1, p2, p3⟩
                · exact Or.inl hh
                · exact Or.inr ⟨ρ, p1, by omega, p3⟩
            · rw [hEun r c (Or.inl hr)] at h3
              rcases (hinv.tri t).mp ((mem_triples dcur t).mpr
                  ⟨r, c, hr2, hc2, h1c, h2c, h3⟩) with hh | ⟨ρ, p1, p2, p3⟩
              · exact Or.inl hh
              · exact Or.inr ⟨ρ, p1, by omega, p3⟩
          · intro h
            rcases h with hd | ⟨ρ, hρ2, hρlt, hρt⟩
            · exact hlift t ((hinv.tri t).mpr (Or.inl hd))
            · rcases Nat.lt_or_ge ρ a with hρa | hρa
              · exact hlift t ((hinv.tri t).mpr (Or.inr ⟨ρ, hρ2, hρa, hρt⟩))
              · have hρeq : ρ = a := by omega
                rw [hρeq] at hρt
                obtain ⟨h1s, hbfs, c', hc'2, hscls, hsval⟩ := hρt
                have ht1 : t.1 = rcd := by
                  rw [hr1] at h1s
                  injection h1s with hh
                  exact hh.symm
                have hc'le : c' ≤ s.maxCol :=
                  (hs.inB 1 c' (by rw [hscls]; exact Option.some_ne_none _)).2.2.2
                obtain ⟨k, hk_eq⟩ : ∃ k, c' = 2 + k := ⟨c' - 2, by omega⟩
                subst hk_eq
                have hkL : k < (mp.drop 1).length := by rw [hlen]; omega
                have hkv : s.cells a (2+k) ≠ none := by
                  rw [hsval]
                  exact Option.some_ne_none _
                have hwr := hEwr k hkL hkv
                rw [hsval] at hwr
                have hkS : k < s.maxCol - 1 := by omega
                have hm2 := hmap2 k hkS
                rw [← hmk k] at hm2
                have hlab : d1.cells 1 ((mp.drop 1).getD k 0) = some t.2.1 := by
                  rw [hm2.2.2]
                  exact hscls
                have hm_ne1 : (mp.drop 1).getD k 0 ≠ 1 := by
                  intro h1m
                  rw [h1m, hd1corner] at hlab
                  cases hlab
                rw [mem_triples]
                refine ⟨i+1, (mp.drop 1).getD k 0, by omega,
                  by have := hm2.1; omega, ?_, ?_, hwr⟩
                · rw [hcol1new (i+1), hrowold 1, hival, ht1]
                · rw [hrow1new _, hinv.row1 _]
                  exact hlab
      | none =>
        dsimp only
        rw [appendRow_maxRow]
        have hd1r : 1 ≤ d1.maxRow := by
          rw [hext.mr]
          exact hd0.rowPos
        have hi2 : 2 ≤ dcur.maxRow + 1 := by
          have := hinv.mr
          omega
        have hap1 : (dcur.appendRow rcd).cells (dcur.maxRow+1) 1 = some rcd := by
          rw [appendRow_cells]
          exact if_pos ⟨rfl, rfl⟩
        have hap_ne : ∀ r c, ¬(r = dcur.maxRow + 1 ∧ c = 1) →
            (dcur.appendRow rcd).cells r c = dcur.cells r c := by
          intro r c hcond
          rw [appendRow_cells]
          exact if_neg hcond
        have hcur_irow : ∀ c, dcur.cells (dcur.maxRow+1) c = none := by
          intro c
          by_contra hcc
          have := (hinv.inB _ c hcc).2.1
          omega
        have hrec_not_d0 : ∀ r, r ≤ d1.maxRow → d0.cells r 1 ≠ some rcd := by
          intro r hrle
          rcases Nat.eq_zero_or_pos r with hr0 | hr0
          · subst hr0
            intro hcc
            have := (hd0.inB 0 1 (by rw [hcc]; exact Option.some_ne_none _)).1
            omega
          · have hrlt : r - 1 < d0.maxRow := by
              rw [← hext.mr]
              omega
            have := pyIndex_none (get_record_names d0) (some rcd) hpi (r-1)
              (by rw [get_record_names_length]; exact hrlt)
            rw [get_record_names_getD d0 (r-1) hrlt,
              show r - 1 + 1 = r from by omega] at this
            exact this
        have hrec_not_cur : ∀ r, r ≤ dcur.maxRow → dcur.cells r 1 ≠ some rcd := by
          intro r hrle hcc
          rcases le_or_lt r d1.maxRow with hrd | hrd
          · rw [hinv.oldRec r hrd] at hcc
            exact hrec_not_d0 r hrd hcc
          · obtain ⟨ρ, p1, p2, p3, p4, p5⟩ := hinv.newRecSrc r hrd hrle
            have hρa : ρ = a := by
              refine hs.recU ρ a p1 ha ?_ ?_ ?_
              · rw [p3, hcc]
                exact Option.some_ne_none _
              · rw [p3]
                exact p5
              · rw [p3, hcc, hr1]
            omega
        have hcols_ap : ∀ k, k < (mp.drop 1).length →
            1 ≤ (mp.drop 1).getD k 0 ∧
            (mp.drop 1).getD k 0 ≤ (dcur.appendRow rcd).maxCol := by
          intro k hkL
          obtain ⟨hb1, hb2⟩ := hcols_cur k hkL
          exact ⟨hb1, by rw [appendRow_maxCol]; exact hb2⟩
        obtain ⟨hEmr, hEmc, hEun, hEwr⟩ :=
          copyCells_spec s a (dcur.maxRow+1) (mp.drop 1) 2 (dcur.appendRow rcd)
            (by omega) (by rw [appendRow_maxRow]) hcols_ap hinj
        have hcol1new : ∀ r,
            (copyCells s a (dcur.maxRow+1) (mp.drop 1) 2 (dcur.appendRow rcd)).cells r 1 =
              (dcur.appendRow rcd).cells r 1 :=
          fun r => hEun r 1 (Or.inr hones)
        have hrow1new : ∀ c,
            (copyCells s a (dcur.maxRow+1) (mp.drop 1) 2 (dcur.appendRow rcd)).cells 1 c =
              dcur.cells 1 c := by
          intro c
          rw [hEun 1 c (Or.inl (by omega)), hap_ne 1 c (by intro ⟨hh, _⟩; omega)]
        have hlift : ∀ u, u ∈ triples dcur →
            u ∈ triples (copyCells s a (dcur.maxRow+1) (mp.drop 1) 2
              (dcur.appendRow rcd)) := by
          intro u hu
          rw [mem_triples] at hu
          obtain ⟨r, c, hr2, hc2, h1, h2, h3⟩ := hu
          have hrle : r ≤ dcur.maxRow :=
            (hinv.inB r c (by rw [h3]; exact Option.some_ne_none _)).2.1
          have hrne : r ≠ dcur.maxRow + 1 := by omega
          rw [mem_triples]
          refine ⟨r, c, hr2, hc2, ?_, ?_, ?_⟩
          · rw [hcol1new r, hap_ne r 1 (by intro ⟨hh, _⟩; exact hrne hh)]
            exact h1
          · rw [hrow1new c]
            exact h2
          · rw [hEun r c (Or.inl hrne), hap_ne r c (by intro ⟨hh, _⟩; exact hrne hh)]
            exact h3
        refine ⟨?_, ?_, ?_, ?_, ?_, ?_, ?_, ?_, ?_, ?_, ?_⟩
        · rw [hEmc, appendRow_maxCol]
          exact hinv.mc
        · rw [hEmr, appendRow_maxRow]
          have := hinv.mr
          omega
        · intro c
          rw [hrow1new c]
          exact hinv.row1 c
        · intro r c hne
          rw [hEmr, appendRow_maxRow, hEmc, appendRow_maxCol]
          by_cases hr : r = dcur.maxRow + 1
          · subst hr
            by_cases hc1 : c = 1
            · subst hc1
              have hcpos : 1 ≤ dcur.maxCol := by
                rw [hinv.mc]
                have := hext.mc
                have := hd0.colPos
                omega
              exact ⟨by omega, by omega, le_refl 1, hcpos⟩
            · by_cases hhit : ∃ k, k < (mp.drop 1).length ∧
                  (mp.drop 1).getD k 0 = c ∧ s.cells a (2+k) ≠ none
              · obtain ⟨k, hkL, hkc, hkv⟩ := hhit
                obtain ⟨hb1, hb2⟩ := hcols_cur k hkL
                rw [hkc] at hb1 hb2
                exact ⟨by omega, by omega, hb1, hb2⟩
              · rw [hEun (dcur.maxRow+1) c (Or.inr (fun k hkL hkc => by
                  by_contra hcc
                  exact hhit ⟨k, hkL, hkc, hcc⟩)),
                  hap_ne (dcur.maxRow+1) c (by intro ⟨_, hcc⟩; exact hc1 hcc)] at hne
                exact absurd (hcur_irow c) hne
          · rw [hEun r c (Or.inl hr),
              hap_ne r c (by intro ⟨hh, _⟩; exact hr hh)] at hne
            obtain ⟨q1, q2, q3, q4⟩ := hinv.inB r c hne
            exact ⟨q1, by omega, q3, q4⟩
        · intro r hrle
          have hrne : r ≠ dcur.maxRow + 1 := by
            have := hinv.mr
            omega
          rw [hcol1new r, hap_ne r 1 (by intro ⟨hh, _⟩; exact hrne hh)]
          exact hinv.oldRec r hrle
        · intro r h1 h2
          rw [hEmr, appendRow_maxRow] at h2
          by_cases hr : r = dcur.maxRow + 1
          · subst hr
            rw [hcol1new (dcur.maxRow+1), hap1]
            exact ⟨a, ha, by omega, hr1, Option.some_ne_none _, hbf⟩
          · have hrle : r ≤ dcur.maxRow := by omega
            rw [hcol1new r, hap_ne r 1 (by intro ⟨hh, _⟩; exact hr hh)]
            obtain ⟨ρ, p1, p2, p3, p4, p5⟩ := hinv.newRecSrc r h1 hrle
            exact ⟨ρ, p1, by omega, p3, p4, p5⟩
        · intro r r2 hrr hrr2 hne heq
          rw [hcol1new r] at hne heq
          rw [hcol1new r2] at heq
          by_cases hr : r = dcur.maxRow + 1
          · by_cases hr2' : r2 = dcur.maxRow + 1
            · rw [hr, hr2']
            · exfalso
              rw [hr, hap1] at heq
              rw [hap_ne r2 1 (by intro ⟨hh, _⟩; exact hr2' hh)] at heq
              have hr2le : r2 ≤ dcur.maxRow := by
                by_contra hgt
                push_neg at hgt
                have hnone : dcur.cells r2 1 = none := by
                  by_contra hnn
                  have := (hinv.inB r2 1 hnn).2.1
                  omega
                rw [hnone] at heq
                cases heq
              exact hrec_not_cur r2 hr2le heq.symm
          · rw [hap_ne r 1 (by intro ⟨hh, _⟩; exact hr hh)] at hne heq
            by_cases hr2' : r2 = dcur.maxRow + 1
            · exfalso
              rw [hr2', hap1] at heq
              have hrle : r ≤ dcur.maxRow := (hinv.inB r 1 hne).2.1
              exact hrec_not_cur r hrle heq
            · rw [hap_ne r2 1 (by intro ⟨hh, _⟩; exact hr2' hh)] at heq
              exact hinv.recU r r2 hrr hrr2 hne heq
        · intro r c hrr hc h1
          rw [hrow1new c] at h1
          by_cases hr : r = dcur.maxRow + 1
          · subst hr
            by_cases hhit : ∃ k, k < (mp.drop 1).length ∧
                (mp.drop 1).getD k 0 = c ∧ s.cells a (2+k) ≠ none
            · exfalso
              obtain ⟨k, hkL, hkc, hkv⟩ := hhit
              have hkS : k < s.maxCol - 1 := by rw [← hlen]; exact hkL
              obtain ⟨_, _, hm3⟩ := hmap2 k hkS
              have hc_eq : mp.getD (k+1) 0 = c := (hmk k).symm.trans hkc
              rw [hc_eq] at hm3
              have hlab : d1.cells 1 c = none := by
                rw [← hinv.row1 c]
                exact h1
              rw [hlab] at hm3
              exact hkv (hs.noneCls a (2+k) ha (by omega) hm3.symm)
            · rw [hEun (dcur.maxRow+1) c (Or.inr (fun k hkL hkc => by
                by_contra hcc
                exact hhit ⟨k, hkL, hkc, hcc⟩)),
                hap_ne (dcur.maxRow+1) c (by intro ⟨_, hcc⟩; omega)]
              exact hcur_irow c
          · rw [hEun r c (Or.inl hr), hap_ne r c (by intro ⟨hh, _⟩; exact hr hh)]
            exact hinv.noneCls r c hrr hc h1
        · intro r c hrr hc h1
          rw [hcol1new r] at h1
          by_cases hr : r = dcur.maxRow + 1
          · exfalso
            rw [hr, hap1] at h1
            cases h1
          · rw [hap_ne r 1 (by intro ⟨hh, _⟩; exact hr hh)] at h1
            rw [hEun r c (Or.inl hr), hap_ne r c (by intro ⟨hh, _⟩; exact hr hh)]
            exact hinv.noneRec r c hrr hc h1
        · intro r c hrr hrle hall
          have hrne : r ≠ dcur.maxRow + 1 := by
            have := hinv.mr
            omega
          rw [hEun r c (Or.inl hrne), hap_ne r c (by intro ⟨hh, _⟩; exact hrne hh)]
          exact hinv.oldRows r c hrr hrle
            (fun ρ p1 p2 p3 p4 => hall ρ p1 (by omega) p3 p4)
        · intro t
          constructor
          · intro ht
            rw [mem_triples] at ht
            obtain ⟨r, c, hr2, hc2, h1, h2, h3⟩ := ht
            have h2c : dcur.cells 1 c = some t.2.1 := by
              rw [← hrow1new c]
              exact h2
            have h2d1 : d1.cells 1 c = some t.2.1 := by
              rw [← hinv.row1 c]
              exact h2c
            by_cases hr : r = dcur.maxRow + 1
            · subst hr
              have ht1 : t.1 = rcd := by
                rw [hcol1new (dcur.maxRow+1), hap1] at h1
                injection h1 with hh
                exact hh.symm
              by_cases hhit : ∃ k, k < (mp.drop 1).length ∧
                  (mp.drop 1).getD k 0 = c ∧ s.cells a (2+k) ≠ none
              · obtain ⟨k, hkL, hkc, hkv⟩ := hhit
                have hkS : k < s.maxCol - 1 := by rw [← hlen]; exact hkL
                obtain ⟨_, _, hm3⟩ := hmap2 k hkS
                have hc_eq : mp.getD (k+1) 0 = c := (hmk k).symm.trans hkc
                rw [hc_eq] at hm3
                have hscls : s.cells 1 (2+k) = some t.2.1 := by
                  rw [← hm3]
                  exact h2d1
                have hwr := hEwr k hkL hkv
                rw [hkc] at hwr
                rw [h3] at hwr
                exact Or.inr ⟨a, ha, by omega,
                  show s.cells a 1 = some t.1 by rw [ht1]; exact hr1,
                  show ¬(ib = true ∧ is_blank (some t.1) = true) by
                    rw [ht1]; exact hbf,
                  2+k, by omega, hscls, hwr.symm⟩
              · exfalso
                rw [hEun (dcur.maxRow+1) c (Or.inr (fun k hkL hkc => by
                  by_contra hcc
                  exact hhit ⟨k, hkL, hkc, hcc⟩)),
                  hap_ne (dcur.maxRow+1) c (by intro ⟨_, hcc⟩; omega),
                  hcur_irow c] at h3
                cases h3
            · rw [hEun r c (Or.inl hr),
                hap_ne r c (by intro ⟨hh, _⟩; exact hr hh)] at h3
              have h1c : dcur.cells r 1 = some t.1 := by
                rw [← hap_ne r 1 (by intro ⟨hh, _⟩; exact hr hh), ← hcol1new r]
                exact h1
              rcases (hinv.tri t).mp ((mem_triples dcur t).mpr
                  ⟨r, c, hr2, hc2, h1c, h2c, h3⟩) with hh | ⟨ρ, p1, p2, p3⟩
              · exact Or.inl hh
              · exact Or.inr ⟨ρ, p1, by omega, p3⟩
          · intro h
            rcases h with hd | ⟨ρ, hρ2, hρlt, hρt⟩
            · exact hlift t ((hinv.tri t).mpr (Or.inl hd))
            · rcases Nat.lt_or_ge ρ a with hρa | hρa
              · exact hlift t ((hinv.tri t).mpr (Or.inr ⟨ρ, hρ2, hρa, hρt⟩))
              · have hρeq : ρ = a := by omega
                rw [hρeq] at hρt
                obtain ⟨h1s, hbfs, c', hc'2, hscls, hsval⟩ := hρt
                have ht1 : t.1 = rcd := by
                  rw [hr1] at h1s
                  injection h1s with hh
                  exact hh.symm
                have hc'le : c' ≤ s.maxCol :=
                  (hs.inB 1 c' (by rw [hscls]; exact Option.some_ne_none _)).2.2.2
                obtain ⟨k, hk_eq⟩ : ∃ k, c' = 2 + k := ⟨c' - 2, by omega⟩
                subst hk_eq
                have hkL : k < (mp.drop 1).length := by rw [hlen]; omega
                have hkv : s.cells a (2+k) ≠ none := by
                  rw [hsval]
                  exact Option.some_ne_none _
                have hwr := hEwr k hkL hkv
                rw [hsval] at hwr
                have hkS : k < s.maxCol - 1 := by omega
                have hm2 := hmap2 k hkS
                rw [← hmk k] at hm2
                have hlab : d1.cells 1 ((mp.drop 1).getD k 0) = some t.2.1 := by
                  rw [hm2.2.2]
                  exact hscls
                have hm_ne1 : (mp.drop 1).getD k 0 ≠ 1 := by
                  intro h1m
                  rw [h1m, hd1corner] at hlab
                  cases hlab
                rw [mem_triples]
                refine ⟨dcur.maxRow + 1, (mp.drop 1).getD k 0, by omega,
                  by have := hm2.1; omega, ?_, ?_, hwr⟩
                · rw [hcol1new (dcur.maxRow+1), hap1, ht1]
                · rw [hrow1new _, hinv.row1 _]
                  exact hlab

/-- The row loop of `merge` maintains the invariant across any number of
iterations. -/
theorem mergeRows_inv (d0 d1 s : Sheet) (ib : Bool) (mp : List Nat)
    (hd0 : WfDest d0) (hs : WfSrc ib s) (hext : ClassExt d0 d1)
    (hmap : MapSpec d1 s mp) (hcompat : TriCompat (triples d0) (srcTriples ib s)) :
    ∀ (n a : Nat) (dcur : Sheet), 2 ≤ a → RowsInv d0 d1 s ib a dcur →
      RowsInv d0 d1 s ib (a + n)
        (mergeRows (get_record_names d0) mp s ib n a dcur) := by
  intro n
  induction n with
  | zero =>
    intro a dcur _ hinv
    exact hinv
  | succ n ih =>
    intro a dcur ha hinv
    have hstep := mergeRow_inv d0 d1 s ib mp hd0 hs hext hmap hcompat a ha dcur hinv
    have hrec := ih (a+1) (mergeRow (get_record_names d0) mp s ib dcur a)
      (by omega) hstep
    have heq : a + (n+1) = (a+1) + n := by omega
    rw [heq]
    exact hrec

/-- `xutils.merge` on validated, mutually compatible inputs: the result is
again destination-well-formed and its triple set is exactly the union of
the destination's and the source's contributed triples. -/
theorem merge_spec (d0 s : Sheet) (ib : Bool) (hd0 : WfDest d0) (hs : WfSrc ib s)
    (hcompat : TriCompat (triples d0) (srcTriples ib s)) :
    WfDest (merge d0 s ib) ∧
    triples (merge d0 s ib) = triples d0 ∪ srcTriples ib s := by
  obtain ⟨hext1, hU1, hlen1, hent1⟩ := mergeMapAll_spec d0 hd0 (get_class_names s) d0
    (classExt_refl d0) hd0.clsU
    (fun v _ _ c h1 h2 => absurd (lt_of_lt_of_le h1 h2) (lt_irrefl _))
    (by
      intro k k2 hk hk2 hne heqv
      rw [get_class_names_length] at hk hk2
      rw [get_class_names_getD s k hk] at hne heqv
      rw [get_class_names_getD s k2 hk2] at heqv
      rcases Nat.eq_zero_or_pos k with hk0 | hk0
      · subst hk0
        simp only [Nat.zero_add] at hne
        rw [hs.corner] at hne
        exact absurd rfl hne
      · rcases Nat.eq_zero_or_pos k2 with hk20 | hk20
        · subst hk20
          simp only [Nat.zero_add] at heqv
          rw [hs.corner] at heqv
          exact absurd heqv hne
        · have := hs.clsU (k+1) (k2+1) (by omega) (by omega) hne heqv
          omega)
  have hmapS : MapSpec (mergeMapAll d0 (get_class_names d0) (get_class_names s)).1 s
      (mergeMapAll d0 (get_class_names d0) (get_class_names s)).2 := by
    constructor
    · rw [hlen1, get_class_names_length]
    · intro k hk
      exact hent1 k (by rw [get_class_names_length]; exact hk)
  have hinv0 := rowsInv_init d0
    (mergeMapAll d0 (get_class_names d0) (get_class_names s)).1 s ib hd0 hext1
  have hfin := mergeRows_inv d0
    (mergeMapAll d0 (get_class_names d0) (get_class_names s)).1 s ib
    (mergeMapAll d0 (get_class_names d0) (get_class_names s)).2
    hd0 hs hext1 hmapS hcompat (s.maxRow - 1) 2
    (mergeMapAll d0 (get_class_names d0) (get_class_names s)).1
    (le_refl 2) hinv0
  have ha_eq : 2 + (s.maxRow - 1) = s.maxRow + 1 := by
    have := hs.rowPos
    omega
  rw [ha_eq] at hfin
  have hmerge_eq : merge d0 s ib =
      mergeRows (get_record_names d0)
        (mergeMapAll d0 (get_class_names d0) (get_class_names s)).2 s ib
        (s.maxRow - 1) 2
        (mergeMapAll d0 (get_class_names d0) (get_class_names s)).1 := rfl
  rw [hmerge_eq]
  have hd1mr : (mergeMapAll d0 (get_class_names d0) (get_class_names s)).1.maxRow
      = d0.maxRow := hext1.mr
  have hd1mc : d0.maxCol ≤
      (mergeMapAll d0 (get_class_names d0) (get_class_names s)).1.maxCol := hext1.mc
  refine ⟨⟨?_, ?_, ?_, hfin.inB, ?_, hfin.recU, hfin.noneCls, hfin.noneRec⟩, ?_⟩
  · have := hfin.mr
    have := hd0.rowPos
    omega
  · have := hfin.mc
    have := hd0.colPos
    omega
  · rw [hfin.row1 1, classExt_col1 hd0 hext1 1]
    exact hd0.corner
  · intro c c2 hc hc2 hne heqv
    rw [hfin.row1 c] at hne heqv
    rw [hfin.row1 c2] at heqv
    exact hU1 c c2 hc hc2 hne heqv
  · ext t
    rw [hfin.tri t, Set.mem_union]
    refine or_congr Iff.rfl ⟨?_, ?_⟩
    · intro ⟨ρ, hρ2, hρlt, h1, hbf2, c, hc2, hcls, hval⟩
      exact (mem_srcTriples ib s t).mpr
        ⟨(mem_triples s t).mpr ⟨ρ, c, hρ2, hc2, h1, hcls, hval⟩, hbf2⟩
    · intro hsrc
      obtain ⟨htr, hbf2⟩ := (mem_srcTriples ib s t).mp hsrc
      obtain ⟨r, c, hr2, hc2, h1, h2, h3⟩ := (mem_triples s t).mp htr
      have hrle : r ≤ s.maxRow :=
        (hs.inB r c (by rw [h3]; exact Option.some_ne_none _)).2.1
      exact ⟨r, hr2, by omega, h1, hbf2, c, hc2, h2, h3⟩

theorem triCompat_union_left (A B C : Set (Value × Value × Value))
    (h1 : TriCompat A C) (h2 : TriCompat B C) : TriCompat (A ∪ B) C := by
  intro rcd cls v w hv hw
  rcases hv with hv | hv
  · exact h1 rcd cls v w hv hw
  · exact h2 rcd cls v w hv hw

theorem validSet_of_subset (ib : Bool) (L L2 : List Sheet)
    (hsub : ∀ x, x ∈ L2 → x ∈ L) (hv : ValidSet ib L) : ValidSet ib L2 :=
  ⟨fun s2 hs2 => hv.1 s2 (hsub s2 hs2),
   fun s2 hs2 s3 hs3 => hv.2 s2 (hsub s2 hs2) s3 (hsub s3 hs3)⟩

theorem unionSrc_append (ib : Bool) (L1 L2 : List Sheet) :
    unionSrc ib (L1 ++ L2) = unionSrc ib L1 ∪ unionSrc ib L2 := by
  induction L1 with
  | nil => simp [unionSrc]
  | cons s2 rest ih => simp [unionSrc, ih, Set.union_assoc]

theorem triples_degenerate : triples degenerate = ∅ := by
  ext t
  constructor
  · intro ht
    obtain ⟨r, c, _, _, h1, _, _⟩ := (mem_triples degenerate t).mp ht
    exact absurd h1 (by simp [degenerate])
  · intro ht
    exact absurd ht (Set.not_mem_empty t)

theorem wfDest_degenerate : WfDest degenerate := by
  refine ⟨le_refl 1, le_refl 1, rfl, ?_, ?_, ?_, ?_, ?_⟩
  · intro r c h
    exact absurd rfl h
  · intro c c2 _ _ hne _
    exact absurd rfl hne
  · intro r r2 _ _ hne _
    exact absurd rfl hne
  · intro r c _ _ _
    rfl
  · intro r c _ _ _
    rfl

/-- Folding `merge` over a mutually valid list of sources, starting from a
fresh destination, yields exactly the union of their contributed triples. -/
theorem foldMerge_spec (ib : Bool) : ∀ (L : List Sheet) (d : Sheet), WfDest d →
    (∀ s2, s2 ∈ L → WfSrc ib s2) →
    (∀ s2, s2 ∈ L → ∀ s3, s3 ∈ L → TriCompat (srcTriples ib s2) (srcTriples ib s3)) →
    (∀ s2, s2 ∈ L → TriCompat (triples d) (srcTriples ib s2)) →
    WfDest (foldMerge ib d L) ∧
    triples (foldMerge ib d L) = triples d ∪ unionSrc ib L := by
  intro L
  induction L with
  | nil =>
    intro d hd _ _ _
    refine ⟨hd, ?_⟩
    rw [show unionSrc ib [] = ∅ from rfl, Set.union_empty]
    rfl
  | cons s2 rest ih =>
    intro d hd hwf hpair hdc
    obtain ⟨hd', htr⟩ := merge_spec d s2 ib hd (hwf s2 (List.mem_cons_self s2 rest))
      (hdc s2 (List.mem_cons_self s2 rest))
    obtain ⟨hwd, htr2⟩ := ih (merge d s2 ib) hd'
      (fun x hx => hwf x (List.mem_cons_of_mem s2 hx))
      (fun x hx y hy => hpair x (List.mem_cons_of_mem s2 hx) y
        (List.mem_cons_of_mem s2 hy))
      (fun x hx => by
        rw [htr]
        exact triCompat_union_left _ _ _ (hdc x (List.mem_cons_of_mem s2 hx))
          (hpair s2 (List.mem_cons_self s2 rest) x (List.mem_cons_of_mem s2 hx)))
    refine ⟨hwd, ?_⟩
    rw [show foldMerge ib d (s2 :: rest) = foldMerge ib (merge d s2 ib) rest from rfl,
      htr2, htr,
      show unionSrc ib (s2 :: rest) = srcTriples ib s2 ∪ unionSrc ib rest from rfl,
      Set.union_assoc]

theorem ofLists2_cells (a b c d : Option Value) (r k : Nat) :
    (Sheet.ofLists [[a, b], [c, d]]).cells r k =
      if r = 1 ∧ k = 1 then a
      else if r = 1 ∧ k = 2 then b
      else if r = 2 ∧ k = 1 then c
      else if r = 2 ∧ k = 2 then d
      else none := by
  rcases r with _ | _ | _ | r <;> rcases k with _ | _ | _ | k <;>
    simp [Sheet.ofLists, List.getD]

/-- Any 2×2 sheet with an empty corner, one class label, one record label
and one data value is source-well-formed (it passes every check C6 relies
on). -/
theorem wfSrc_2x2 (ib : Bool) (B R : String) (v : Value) :
    WfSrc ib (Sheet.ofLists [[none, vs B], [vs R, some v]]) := by
  have hmr : (Sheet.ofLists [[none, vs B], [vs R, some v]]).maxRow = 2 := rfl
  have hmc : (Sheet.ofLists [[none, vs B], [vs R, some v]]).maxCol = 2 := rfl
  refine ⟨by rw [hmr]; omega, by rw [hmc]; omega, rfl, ?_, ?_, ?_, ?_, ?_, ?_⟩
  · intro r k h
    rw [ofLists2_cells] at h
    rw [hmr, hmc]
    split_ifs at h with h1 h2 h3 h4
    · exact absurd rfl h
    · omega
    · omega
    · omega
    · exact absurd rfl h
  · intro c c2 hc hc2 hne heqv
    rw [ofLists2_cells] at hne heqv
    rw [ofLists2_cells] at heqv
    split_ifs at hne heqv <;> simp_all [vs]
  · intro r r2 hr hr2 hne _ heqv
    rw [ofLists2_cells] at hne heqv
    rw [ofLists2_cells] at heqv
    split_ifs at hne heqv <;> simp_all [vs]
  · intro r k hr hk h1
    rw [ofLists2_cells] at h1 ⊢
    split_ifs at h1 ⊢ <;> simp_all [vs]
  · intro r k hr hk h1
    rw [ofLists2_cells] at h1 ⊢
    split_ifs at h1 ⊢ <;> simp_all [vs]
  · intro r w hr hw
    rw [ofLists2_cells] at hw
    split_ifs at hw <;>
      first
        | (exfalso; omega)
        | (injection hw with hh; exact ⟨R, hh.symm⟩)

/-- The triple set of the 2×2 sheet is the obvious singleton. -/
theorem triples_2x2 (B R : String) (v : Value) (t : Value × Value × Value) :
    t ∈ triples (Sheet.ofLists [[none, vs B], [vs R, some v]]) ↔
      t = (Value.str R, Value.str B, v) := by
  rw [mem_triples]
  constructor
  · intro ⟨r, c, hr, hc, h1, h2, h3⟩
    rw [ofLists2_cells] at h1 h2 h3
    split_ifs at h1 h2 h3 <;> simp_all [vs, Prod.ext_iff]
  · intro ht
    subst ht
    exact ⟨2, 2, le_refl 2, le_refl 2, rfl, rfl, rfl⟩

theorem srcTriples_2x2_mem (ib : Bool) (B R : String) (v : Value)
    (t : Value × Value × Value)
    (h : t ∈ srcTriples ib (Sheet.ofLists [[none, vs B], [vs R, some v]])) :
    t = (Value.str R, Value.str B, v) :=
  (triples_2x2 B R v t).mp ((mem_srcTriples ib _ t).mp h).1

/-- The two C6 witness sheets, with disjoint labels, form a mutually valid
input set. -/
theorem validSet_c6_pair : ValidSet false [sheetC1, sheetC6B] := by
  constructor
  · intro s2 hs2
    simp only [List.mem_cons, List.not_mem_nil, or_false] at hs2
    rcases hs2 with h | h
    · rw [h]
      exact wfSrc_2x2 false "C" "R" (Value.str "v")
    · rw [h]
      exact wfSrc_2x2 false "D" "S" (Value.num 3)
  · have hAA : TriCompat (srcTriples false sheetC1) (srcTriples false sheetC1) := by
      intro rcd cls x w h1 h2
      have e1 := srcTriples_2x2_mem false "C" "R" (Value.str "v") _ h1
      have e2 := srcTriples_2x2_mem false "C" "R" (Value.str "v") _ h2
      have hx : x = Value.str "v" :=
        congrArg (fun p : Value × Value × Value => p.2.2) e1
      have hw : w = Value.str "v" :=
        congrArg (fun p : Value × Value × Value => p.2.2) e2
      rw [hx, hw]
    have hBB : TriCompat (srcTriples false sheetC6B) (srcTriples false sheetC6B) := by
      intro rcd cls x w h1 h2
      have e1 := srcTriples_2x2_mem false "D" "S" (Value.num 3) _ h1
      have e2 := srcTriples_2x2_mem false "D" "S" (Value.num 3) _ h2
      have hx : x = Value.num 3 :=
        congrArg (fun p : Value × Value × Value => p.2.2) e1
      have hw : w = Value.num 3 :=
        congrArg (fun p : Value × Value × Value => p.2.2) e2
      rw [hx, hw]
    have hAB : TriCompat (srcTriples false sheetC1) (srcTriples false sheetC6B) := by
      intro rcd cls x w h1 h2
      have e1 := srcTriples_2x2_mem false "C" "R" (Value.str "v") _ h1
      have e2 := srcTriples_2x2_mem false "D" "S" (Value.num 3) _ h2
      have hc1 : cls = Value.str "C" :=
        congrArg (fun p : Value × Value × Value => p.2.1) e1
      have hc2 : cls = Value.str "D" :=
        congrArg (fun p : Value × Value × Value => p.2.1) e2
      rw [hc1] at hc2
      exact absurd hc2 (by decide)
    have hBA : TriCompat (srcTriples false sheetC6B) (srcTriples false sheetC1) := by
      intro rcd cls x w h1 h2
      have e1 := srcTriples_2x2_mem false "D" "S" (Value.num 3) _ h1
      have e2 := srcTriples_2x2_mem false "C" "R" (Value.str "v") _ h2
      have hc1 : cls = Value.str "D" :=
        congrArg (fun p : Value × Value × Value => p.2.1) e1
      have hc2 : cls = Value.str "C" :=
        congrArg (fun p : Value × Value × Value => p.2.1) e2
      rw [hc1] at hc2
      exact absurd hc2 (by decide)
    intro s2 hs2 s3 hs3
    simp only [List.mem_cons, List.not_mem_nil, or_false] at hs2 hs3
    rcases hs2 with h2 | h2 <;> rcases hs3 with h3 | h3 <;> rw [h2, h3]
    · exact hAA
    · exact hAB
    · exact hBA
    · exact hBB

theorem validSet_c6_rev : ValidSet false ([sheetC6B] ++ sheetC1 :: []) :=
  validSet_of_subset false [sheetC1, sheetC6B] ([sheetC6B] ++ sheetC1 :: [])
    (by
      intro x hx
      simp only [List.mem_cons, List.not_mem_nil, or_false, List.cons_append,
        List.nil_append] at hx ⊢
      tauto)
    validSet_c6_pair

/-- **C6.** For tables valid with respect to each other (as enforced by
validation: well-formed sheets whose shared `(record, class)` pairs carry
equal values), `merge` into a fresh degenerate destination is commutative
in its effect on the set of `(record label, class label, value)` triples,
and re-merging the same source content again — even interleaved with
merges of other sources — leaves that triple set unchanged. -/
theorem c6_merge_commutes_and_idempotent (ib : Bool) (A B : Sheet)
    (L1 L2 : List Sheet) (hAB : ValidSet ib [A, B])
    (hL : ValidSet ib (L1 ++ A :: L2)) :
    triples (foldMerge ib degenerate [A, B]) =
      triples (foldMerge ib degenerate [B, A]) ∧
    triples (foldMerge ib degenerate (L1 ++ A :: (L2 ++ [A]))) =
      triples (foldMerge ib degenerate (L1 ++ A :: L2)) := by
  have hmaster : ∀ (L : List Sheet), ValidSet ib L →
      triples (foldMerge ib degenerate L) = unionSrc ib L := by
    intro L hv
    have hsp := (foldMerge_spec ib L degenerate wfDest_degenerate hv.1 hv.2
      (fun x _ => by
        rw [triples_degenerate]
        intro rcd cls v w hv2 _
        exact absurd hv2 (Set.not_mem_empty _))).2
    rw [hsp, triples_degenerate, Set.empty_union]
  constructor
  · rw [hmaster [A, B] hAB,
      hmaster [B, A] (validSet_of_subset ib [A, B] [B, A]
        (fun x hx => by simp only [List.mem_cons, List.not_mem_nil, or_false] at hx ⊢; tauto)
        hAB)]
    ext t
    simp only [unionSrc, Set.mem_union, Set.mem_empty_iff_false, or_false]
    exact or_comm
  · have hmemiff : ∀ x, x ∈ L1 ++ A :: (L2 ++ [A]) → x ∈ L1 ++ A :: L2 := by
      intro x hx
      simp only [List.mem_append, List.mem_cons, List.mem_singleton,
        List.not_mem_nil, or_false] at hx ⊢
      tauto
    rw [hmaster (L1 ++ A :: L2) hL,
      hmaster (L1 ++ A :: (L2 ++ [A]))
        (validSet_of_subset ib (L1 ++ A :: L2) (L1 ++ A :: (L2 ++ [A])) hmemiff hL),
      unionSrc_append ib L1 (A :: (L2 ++ [A])), unionSrc_append ib L1 (A :: L2),
      show unionSrc ib (A :: (L2 ++ [A])) =
        srcTriples ib A ∪ unionSrc ib (L2 ++ [A]) from rfl,
      show unionSrc ib (A :: L2) = srcTriples ib A ∪ unionSrc ib L2 from rfl,
      unionSrc_append ib L2 [A]]
    ext t
    simp only [Set.mem_union, unionSrc, Set.mem_empty_iff_false, or_false]
    tauto

/-- Witness for C6 at two concrete validated tables. -/
theorem c6_witness :
    triples (foldMerge false degenerate [sheetC1, sheetC6B]) =
      triples (foldMerge false degenerate [sheetC6B, sheetC1]) ∧
    triples (foldMerge false degenerate ([sheetC6B] ++ sheetC1 :: ([] ++ [sheetC1]))) =
      triples (foldMerge false degenerate ([sheetC6B] ++ sheetC1 :: [])) :=
  c6_merge_commutes_and_idempotent false sheetC1 sheetC6B [sheetC6B] []
    validSet_c6_pair validSet_c6_rev

end Lipimerge
